import Mathlib

/-!
# Verification of the pyscroll-ce core against its specification

Shallow embedding of the pyscroll-ce sources:

* `src/pyscroll/quadtree.py`   (`FastQuadTree`)
* `src/pyscroll/animation.py`  (`AnimationFrame`, `AnimationToken`)
* `src/pyscroll/data.py`       (`PyscrollDataAdapter` time/pause logic)
* `src/pyscroll/orthographic.py` (`BufferedRenderer.center`, buffer patching,
  coordinate translation, zoom buffer sizing)

Machine reals (Python floats) are modelled as `ℚ`; all quantities appearing
in the claims (0.5, 1.0, 0.6, 0.1, ...) and every comparison made by the code
on them are exact in this model.  Python `divmod` is `Int.ediv`/`Int.emod`
(floor division), which is what Mathlib's `/` and `%` on `ℤ` denote.
pygame's C-level divisions (`Rect.centerx` etc.) truncate towards zero and
are modelled with `Int.div`.
-/

namespace PyScroll

/-! ## pygame `Rect`

`pygame.Rect` stores four C integers `(x, y, w, h)`.  Accessors `right`,
`bottom`, `centerx`, `centery` follow `rect.c`: `right = x + w`,
`centerx = x + w / 2` with C (truncating) division.
-/

structure PRect where
  x : Int
  y : Int
  w : Int
  h : Int
deriving DecidableEq, Repr

def PRect.right (r : PRect) : Int := r.x + r.w

def PRect.bottom (r : PRect) : Int := r.y + r.h

def PRect.centerx (r : PRect) : Int := r.x + Int.tdiv r.w 2

def PRect.centery (r : PRect) : Int := r.y + Int.tdiv r.h 2

/-- pygame `Rect.colliderect` (`_pg_do_rects_intersect` in rect.c):
zero-sized rectangles collide with nothing, otherwise the spans
(normalised with min/max against negative sizes) must strictly overlap. -/
def PRect.colliderect (a b : PRect) : Bool :=
  if a.w = 0 || a.h = 0 || b.w = 0 || b.h = 0 then false
  else
    decide (min a.x (a.x + a.w) < max b.x (b.x + b.w)) &&
    decide (min a.y (a.y + a.h) < max b.y (b.y + b.h)) &&
    decide (max a.x (a.x + a.w) > min b.x (b.x + b.w)) &&
    decide (max a.y (a.y + a.h) > min b.y (b.y + b.h))

/-- pygame `Rect.union`: topleft is the componentwise min, size reaches the
max of the raw `x + w` / `y + h` ends. -/
def PRect.union (a b : PRect) : PRect :=
  let x := min a.x b.x
  let y := min a.y b.y
  { x := x, y := y
    w := max (a.x + a.w) (b.x + b.w) - x
    h := max (a.y + a.h) (b.y + b.h) - y }

/-- pygame `Rect.unionall`: fold `union` over the remaining rectangles. -/
def PRect.unionall (r : PRect) (rest : List PRect) : PRect :=
  rest.foldl PRect.union r

/-! ## `FastQuadTree` (src/pyscroll/quadtree.py)

The tree is built once from a list of rectangles.  An item belonging to all
four quadrants is kept at the node; all other items are copied into the list
of every quadrant they touch.  Child boundaries are the 4-tuples the source
passes to `Rect(...)`, i.e. `(left, top, cx, cy)` is read as
`(x, y, width, height)` — exactly as pygame interprets them.
-/

def inNW (cx cy : Int) (r : PRect) : Prop := r.x ≤ cx ∧ r.y ≤ cy
def inNE (cx cy : Int) (r : PRect) : Prop := r.right ≥ cx ∧ r.y ≤ cy
def inSE (cx cy : Int) (r : PRect) : Prop := r.right ≥ cx ∧ r.bottom ≥ cy
def inSW (cx cy : Int) (r : PRect) : Prop := r.x ≤ cx ∧ r.bottom ≥ cy

instance (cx cy : Int) (r : PRect) : Decidable (inNW cx cy r) := by
  unfold inNW; infer_instance
instance (cx cy : Int) (r : PRect) : Decidable (inNE cx cy r) := by
  unfold inNE; infer_instance
instance (cx cy : Int) (r : PRect) : Decidable (inSE cx cy r) := by
  unfold inSE; infer_instance
instance (cx cy : Int) (r : PRect) : Decidable (inSW cx cy r) := by
  unfold inSW; infer_instance

/-- An item that would belong to all four quadrants stays at this node. -/
def inAllFour (cx cy : Int) (r : PRect) : Prop :=
  inNW cx cy r ∧ inNE cx cy r ∧ inSE cx cy r ∧ inSW cx cy r

instance (cx cy : Int) (r : PRect) : Decidable (inAllFour cx cy r) := by
  unfold inAllFour; infer_instance

inductive QTree where
  | node (items : List PRect) (cx cy : Int) (boundary : PRect)
         (nw ne sw se : Option QTree)
deriving Repr

def QTree.items : QTree → List PRect
  | .node items _ _ _ _ _ _ _ => items

/-- The items kept at the node: those that would belong to all four
quadrants. -/
def keepItems (cx cy : Int) (rects : List PRect) : List PRect :=
  rects.filter fun r => decide (inAllFour cx cy r)

/-- The items copied into the north-west bucket. -/
def nwItems (cx cy : Int) (rects : List PRect) : List PRect :=
  rects.filter fun r => decide (¬ inAllFour cx cy r ∧ inNW cx cy r)

/-- The items copied into the north-east bucket. -/
def neItems (cx cy : Int) (rects : List PRect) : List PRect :=
  rects.filter fun r => decide (¬ inAllFour cx cy r ∧ inNE cx cy r)

/-- The items copied into the south-east bucket. -/
def seItems (cx cy : Int) (rects : List PRect) : List PRect :=
  rects.filter fun r => decide (¬ inAllFour cx cy r ∧ inSE cx cy r)

/-- The items copied into the south-west bucket. -/
def swItems (cx cy : Int) (rects : List PRect) : List PRect :=
  rects.filter fun r => decide (¬ inAllFour cx cy r ∧ inSW cx cy r)

/-- `FastQuadTree.__init__` with an explicit boundary.
`depth <= 0` stores everything at the node; otherwise items are partitioned
and a child is built for each non-empty quadrant list.  The child boundary
4-tuples are the ones the source passes to `Rect(...)`. -/
def mkQuadTree (rects : List PRect) (depth : Nat) (boundary : PRect) : QTree :=
  let cx := boundary.centerx
  let cy := boundary.centery
  match depth with
  | 0 => .node rects cx cy boundary none none none none
  | d + 1 =>
    let child (l : List PRect) (b : PRect) : Option QTree :=
      if l.isEmpty then none else some (mkQuadTree l d b)
    .node (keepItems cx cy rects) cx cy boundary
      (child (nwItems cx cy rects) ⟨boundary.x, boundary.y, cx, cy⟩)
      (child (neItems cx cy rects) ⟨cx, boundary.y, boundary.right, cy⟩)
      (child (swItems cx cy rects) ⟨boundary.x, cy, cx, boundary.bottom⟩)
      (child (seItems cx cy rects) ⟨cx, cy, boundary.right, boundary.bottom⟩)

/-- `FastQuadTree.__init__`: rejects an empty item list; the default
boundary is `rects[0].unionall(rects[1:])`. -/
def fastQuadTree (items : List PRect) (depth : Nat) (boundary : Option PRect) :
    Except String QTree :=
  match items with
  | [] => .error "Items must not be empty"
  | r :: rest =>
    .ok (mkQuadTree (r :: rest) depth (boundary.getD (r.unionall rest)))

/-- `tuple(item)` — the 4-tuple of the rect's values. -/
def toTuple (r : PRect) : Int × Int × Int × Int := (r.x, r.y, r.w, r.h)

/-- `FastQuadTree.hit`: early-out on the stored boundary, collect the node's
overlapping items as value tuples, and recurse into the children whose
quadrant the *raw* `left/right/top/bottom` of the query reaches. -/
def QTree.hit : QTree → PRect → Finset (Int × Int × Int × Int)
  | .node items cx cy boundary nw ne sw se, q =>
    if ¬ boundary.colliderect q then ∅
    else
      let base := ((items.filter fun i => i.colliderect q).map toTuple).toFinset
      let hnw := if q.x ≤ cx ∧ q.y ≤ cy then
          (match nw with | some c => c.hit q | none => ∅) else ∅
      let hsw := if q.x ≤ cx ∧ q.bottom ≥ cy then
          (match sw with | some c => c.hit q | none => ∅) else ∅
      let hne := if q.right ≥ cx ∧ q.y ≤ cy then
          (match ne with | some c => c.hit q | none => ∅) else ∅
      let hse := if q.right ≥ cx ∧ q.bottom ≥ cy then
          (match se with | some c => c.hit q | none => ∅) else ∅
      base ∪ hnw ∪ hsw ∪ hne ∪ hse

/-- Brute-force linear scan: the set of value tuples of the items whose
rectangle overlaps the query (duplicates collapse in the `Finset`). -/
def bruteHit (items : List PRect) (q : PRect) : Finset (Int × Int × Int × Int) :=
  ((items.filter fun r => r.colliderect q).map toTuple).toFinset

/-! ## Animation (src/pyscroll/animation.py)

Images are opaque identifiers (`ℕ`); durations and times are `ℚ`
(Python floats).  `AnimationToken` is the mutable token state; methods
return the updated state explicitly.
-/

structure AnimationFrame where
  image : Nat
  duration : ℚ
  frameSpeedMultiplier : ℚ := 1
deriving DecidableEq, Repr

instance : Inhabited AnimationFrame := ⟨{ image := 0, duration := 0 }⟩

structure AnimationToken where
  positions : Finset (Int × Int × Int)
  frames : List AnimationFrame
  index : Nat
  next : ℚ
  loop : Bool
  pingPong : Bool
  direction : Int
  done : Bool
  speedMultiplier : ℚ
deriving DecidableEq

/-- `self.frames[self.index]` (the constructor keeps `index` in range, so the
default is never reached for constructed tokens). -/
def AnimationToken.currentFrame (t : AnimationToken) : AnimationFrame :=
  t.frames.getD t.index default

/-- `AnimationToken.__init__`.  The `random.uniform(0, random_jitter)` sample
is passed in explicitly as `jitterSample` (the claims all use zero jitter,
where no sampling happens at all). -/
def mkAnimationToken (positions : Finset (Int × Int × Int))
    (frames : List AnimationFrame) (initialTime : ℚ := 0) (loop : Bool := true)
    (speedMultiplier : ℚ := 1) (pingPong : Bool := false)
    (randomJitter : ℚ := 0) (jitterSample : ℚ := 0) :
    Except String AnimationToken :=
  if frames = [] then .error "Frames sequence cannot be empty."
  else if speedMultiplier ≤ 0 then .error "Speed multiplier must be greater than zero."
  else
    let initialFrame := frames.getD 0 default
    let combinedMultiplier := speedMultiplier * initialFrame.frameSpeedMultiplier
    let initialDuration :=
      if combinedMultiplier ≤ 0 then initialFrame.duration
      else initialFrame.duration / combinedMultiplier
    let jitterOffset := if randomJitter > 0 then jitterSample else 0
    .ok { positions := positions, frames := frames, index := 0
          speedMultiplier := speedMultiplier, loop := loop, pingPong := pingPong
          done := false, direction := 1
          next := initialDuration + initialTime + jitterOffset }

/-- Shared tail of `advance`: fetch the (new) current frame, rescale its
duration by the combined multiplier (falling back to the raw duration when
the product is ≤ 0) and schedule `next` from `current_time`. -/
def AnimationToken.finishAdvance (t : AnimationToken) (currentTime : ℚ) :
    AnimationToken × AnimationFrame :=
  let nextFrame := t.frames.getD t.index default
  let combinedMultiplier := t.speedMultiplier * nextFrame.frameSpeedMultiplier
  let effectiveDuration :=
    if combinedMultiplier ≤ 0 then nextFrame.duration
    else nextFrame.duration / combinedMultiplier
  ({ t with next := effectiveDuration + currentTime }, nextFrame)

/-- `AnimationToken.advance`. -/
def AnimationToken.advance (t : AnimationToken) (currentTime : ℚ) :
    AnimationToken × AnimationFrame :=
  if t.done then (t, t.currentFrame)
  else if t.pingPong then
    let isAtEnd := t.index = t.frames.length - 1 ∧ t.direction = 1
    let isAtStart := t.index = 0 ∧ t.direction = -1
    if isAtEnd then
      let t := { t with direction := -1 }
      let t := { t with index := (Int.ofNat t.index + t.direction).toNat }
      if ¬ t.loop ∧ t.index = 0 ∧ t.direction = -1 then
        ({ t with done := true }, { t with done := true }.currentFrame)
      else t.finishAdvance currentTime
    else if isAtStart then
      if ¬ t.loop then
        ({ t with done := true }, { t with done := true }.currentFrame)
      else
        let t := { t with direction := 1 }
        let t := { t with index := (Int.ofNat t.index + t.direction).toNat }
        if ¬ t.loop ∧ t.index = 0 ∧ t.direction = -1 then
          ({ t with done := true }, { t with done := true }.currentFrame)
        else t.finishAdvance currentTime
    else
      let t := { t with index := (Int.ofNat t.index + t.direction).toNat }
      if ¬ t.loop ∧ t.index = 0 ∧ t.direction = -1 then
        ({ t with done := true }, { t with done := true }.currentFrame)
      else t.finishAdvance currentTime
  else
    if t.index = t.frames.length - 1 then
      if t.loop then ({ t with index := 0 } : AnimationToken).finishAdvance currentTime
      else ({ t with done := true }, { t with done := true }.currentFrame)
    else ({ t with index := t.index + 1 } : AnimationToken).finishAdvance currentTime

/-- The `while current_time >= self.next` catch-up loop of
`AnimationToken.update`, with the advance budget made explicit and the number
of `advance` calls returned.  The Python loop increments `safety_counter`
after each advance and breaks once it exceeds `max_steps`, so it performs at
most `max_steps + 1` advances — running this with fuel `max_steps + 1`
reproduces it exactly. -/
def AnimationToken.updateLoop (t : AnimationToken) (currentTime : ℚ) :
    Nat → AnimationToken × Nat
  | 0 => (t, 0)
  | fuel + 1 =>
    if currentTime ≥ t.next then
      let rest := ((t.advance t.next).1).updateLoop currentTime fuel
      (rest.1, rest.2 + 1)
    else (t, 0)

/-- `AnimationToken.update`.  The `elapsed_time` argument is accepted and,
as in the source, never used. -/
def AnimationToken.update (t : AnimationToken)
    (currentTime elapsedTime : ℚ) : AnimationToken × AnimationFrame :=
  if t.done then (t, t.currentFrame)
  else
    let maxSteps := t.frames.length * 4
    let t' := (t.updateLoop currentTime (maxSteps + 1)).1
    (t', t'.currentFrame)

/-- Number of `advance` calls one `update` call performs. -/
def AnimationToken.updateAdvanceCount (t : AnimationToken)
    (currentTime : ℚ) : Nat :=
  if t.done then 0
  else (t.updateLoop currentTime (t.frames.length * 4 + 1)).2

/-! ## Data-adapter animation clock (src/pyscroll/data.py)

`PyscrollDataAdapter` keeps a virtual clock `_last_time` fed from
`time.time()`.  The wall clock is made an explicit argument `now`. -/

structure AdapterClock where
  isPaused : Bool
  lastTime : ℚ
  pausedTime : ℚ
  pauseModeSkipAhead : Bool
deriving DecidableEq, Repr

/-- `PyscrollDataAdapter._update_time` with the `time.time()` value passed
in as `now`. -/
def updateTime (s : AdapterClock) (now : ℚ) : AdapterClock :=
  if s.isPaused then s
  else if s.pauseModeSkipAhead ∧ s.pausedTime > 0 then
    { s with lastTime := s.lastTime + (now - s.pausedTime), pausedTime := 0 }
  else { s with lastTime := now }

/-- `PyscrollDataAdapter.pause_animations`. -/
def pauseAnimations (s : AdapterClock) (now : ℚ) : AdapterClock :=
  if ¬ s.isPaused then { s with isPaused := true, pausedTime := now } else s

/-- `PyscrollDataAdapter.resume_animations`. -/
def resumeAnimations (s : AdapterClock) (now : ℚ) : AdapterClock :=
  if s.isPaused then
    updateTime { s with isPaused := false, pausedTime := 0 } now
  else s

/-- `process_animation_queue` pops and advances every token whose `next` is
`≤ _last_time`; such a token is *due*. -/
def animationDue (t : AnimationToken) (lastTime : ℚ) : Prop :=
  t.next ≤ lastTime

/-- `PyscrollDataAdapter.set_animation_speed_multiplier` acting on the heap
of tokens. -/
def setAnimationSpeedMultiplier (queue : List AnimationToken) (multiplier : ℚ) :
    Except String (List AnimationToken) :=
  if multiplier ≤ 0 then .error "Multiplier must be greater than zero."
  else .ok (queue.map fun t => { t with speedMultiplier := multiplier })

/-! ## Python numeric primitives -/

/-- Python `int(...)` on a float: truncation towards zero. -/
def pyInt (q : ℚ) : Int := if 0 ≤ q then ⌊q⌋ else ⌈q⌉

/-- Python 3 `round(...)` on a float: round-half-to-even, returning an int. -/
def pyRound (q : ℚ) : Int :=
  let f := ⌊q⌋
  let r := q - f
  if r < 1/2 then f
  else if 1/2 < r then f + 1
  else if Even f then f else f + 1

/-! ## Renderer argument validation (src/pyscroll/orthographic.py) -/

/-- `BufferedRenderer._calculate_zoom_buffer_size`: rejects `value <= 0`,
otherwise `int(size * (1.0 / value))` componentwise. -/
def calculateZoomBufferSize (size : Int × Int) (value : ℚ) :
    Except String (Int × Int) :=
  if value ≤ 0 then .error "zoom level cannot be zero or less"
  else
    let v := 1 / value
    .ok (pyInt (size.1 * v), pyInt (size.2 * v))

inductive ClearColor where
  | colorkey (c : Int × Int × Int)
  | rgba
deriving DecidableEq, Repr

/-- The transparency-mode selection in `BufferedRenderer.__init__`:
`colorkey and alpha` together raise `ValueError` (a 3-tuple is always
truthy), otherwise the clear color is the colorkey, the RGBA clear color,
or nothing. -/
def selectClearColor (colorkey : Option (Int × Int × Int)) (alpha : Bool) :
    Except String (Option ClearColor) :=
  match colorkey, alpha with
  | some _, true => .error "cannot select both colorkey and alpha"
  | some c, false => .ok (some (.colorkey c))
  | none, true => .ok (some .rgba)
  | none, false => .ok none

/-! ## pygame `Rect` mutation helpers used by the renderer -/

/-- `rect.center = (cx, cy)`: `x = cx - w / 2` with C division (sizes are
non-negative in every state the renderer builds, where this agrees with
floor division). -/
def PRect.setCenter (r : PRect) (cx cy : Int) : PRect :=
  { r with x := cx - Int.tdiv r.w 2, y := cy - Int.tdiv r.h 2 }

/-- `rect.clamp_ip(b)` (rect.c): an axis on which the rect is at least as
large as `b` is centered on `b`; otherwise the rect is pushed inside. -/
def PRect.clamp (a b : PRect) : PRect :=
  let x :=
    if a.w ≥ b.w then b.x + Int.tdiv b.w 2 - Int.tdiv a.w 2
    else if a.x < b.x then b.x
    else if a.x + a.w > b.x + b.w then b.x + b.w - a.w
    else a.x
  let y :=
    if a.h ≥ b.h then b.y + Int.tdiv b.h 2 - Int.tdiv a.h 2
    else if a.y < b.y then b.y
    else if a.y + a.h > b.y + b.h then b.y + b.h - a.h
    else a.y
  { a with x := x, y := y }

/-- `rect.move_ip(dx, dy)`. -/
def PRect.moveIp (r : PRect) (dx dy : Int) : PRect :=
  { r with x := r.x + dx, y := r.y + dy }

/-! ## Pixel model for the tile buffer (src/pyscroll/orthographic.py)

The buffer is `buffer_tile_width × buffer_tile_height` cells of exactly
`tile_width × tile_height` pixels, and every blit the scroll/patch/redraw
machinery performs is tile-aligned with tile-sized images (the data-adapter
contract), so the buffer is addressed one cell per tile-view entry.  A tile
image is a partial per-pixel overwrite (pygame blit with colorkey /
binary-alpha masking; this is also the sense in which the spec calls tiles
"idempotent to redraw").  Pixel positions inside a cell and colors are
opaque `ℕ`. -/

/-- A tile image: for each pixel of a cell, an overwriting color or
transparency. -/
def Img : Type := Nat → Option Nat

/-- The rendered pixels of one buffer cell. -/
def Cell : Type := Nat → Nat

/-- One `Surface.blit` of a tile image onto a cell. -/
def blitImg (p : Cell) (img : Img) : Cell :=
  fun pos => (img pos).getD (p pos)

/-- Blitting a list of images in order. -/
def blitStack (p : Cell) (l : List Img) : Cell :=
  l.foldl blitImg p

/-- A cell filled with one color (`Surface.fill`). -/
def constCell (c : Nat) : Cell := fun _ => c

/-- The data-adapter capabilities `BufferedRenderer` consumes:
`map_size`, `tile_size`, `visible_tile_layers` (in render order) and
`get_tile_image`. -/
structure MapData where
  mapW : Int
  mapH : Int
  tileW : Int
  tileH : Int
  layers : List Int
  tileImage : Int → Int → Int → Option Img

/-- The images `get_tile_images_by_rect` yields for one map tile, in
visible-layer order (absent tiles are skipped). -/
def imagesFor (d : MapData) (x y : Int) : List Img :=
  d.layers.filterMap fun l => d.tileImage x y l

/-- What one buffer cell holds after a clear to `cc` followed by blitting
every visible layer of map tile `(x, y)` — the per-cell content of a full
`redraw_tiles`. -/
def renderCell (d : MapData) (cc : Nat) (x y : Int) : Cell :=
  blitStack (constCell cc) (imagesFor d x y)

/-- The state of a `BufferedRenderer` (the fields `center`, the buffer
maintenance and the coordinate translations read or write). -/
structure RState where
  clampCamera : Bool
  mapRect : PRect
  viewRect : PRect
  tileView : PRect
  halfW : Int
  halfH : Int
  xOffset : Int
  yOffset : Int
  redrawCutoff : Int
  anchoredView : Bool
  clearColor : Nat
  zoomLevel : ℚ
  realRatioX : ℚ
  realRatioY : ℚ
  buffer : Int → Int → Cell

/-- `Surface.scroll(-dx*tw, -dy*th)` at cell granularity: content moves by
`(-dx, -dy)` cells; cells whose source lies outside the surface keep their
original (stale) content. -/
def scrollBuffer (b : Int → Int → Cell) (vw vh dx dy : Int) :
    Int → Int → Cell :=
  fun i j =>
    if 0 ≤ i + dx ∧ i + dx < vw ∧ 0 ≤ j + dy ∧ j + dy < vh then
      b (i + dx) (j + dy)
    else b i j

/-- Cell `(i, j)` of the buffer shows map tile
`(v.x + i, v.y + j)`; this predicate says that tile lies in `strip`
(`get_tile_images_by_rect` bounds are inclusive of `x .. x + w - 1`). -/
def cellInStrip (v strip : PRect) (i j : Int) : Prop :=
  strip.x - v.x ≤ i ∧ i < strip.x - v.x + strip.w ∧
  strip.y - v.y ≤ j ∧ j < strip.y - v.y + strip.h

instance (v strip : PRect) (i j : Int) : Decidable (cellInStrip v strip i j) := by
  unfold cellInStrip; infer_instance

/-- The `_clear_surface` call `_queue_edge_tiles` makes for one strip
(the pixel rect `((sx - v.left)*tw, (sy - v.top)*th, sw*tw, sh*th)`). -/
def clearStrip (b : Int → Int → Cell) (cc : Nat) (v strip : PRect) :
    Int → Int → Cell :=
  fun i j => if cellInStrip v strip i j then constCell cc else b i j

/-- `_flush_tile_queue` for the tiles `get_tile_images_by_rect(strip)`
yields: each covered cell receives its visible-layer images in order,
blitted at the tile-aligned position `(x*tw - ltw, y*th - tth)`. -/
def blitStripFromData (d : MapData) (b : Int → Int → Cell) (v strip : PRect) :
    Int → Int → Cell :=
  fun i j =>
    if cellInStrip v strip i j then
      blitStack (b i j) (imagesFor d (v.x + i) (v.y + j))
    else b i j

/-- The edge strips `_queue_edge_tiles` selects, in source order
(`dx` strip first, then `dy` strip), expressed against the already-moved
tile view `v`. -/
def edgeStrips (v : PRect) (dx dy : Int) : List PRect :=
  (if dx > 0 then [⟨v.right - 1, v.y, dx, v.h⟩]
   else if dx < 0 then [⟨v.x, v.y, -dx, v.h⟩]
   else []) ++
  (if dy > 0 then [⟨v.x, v.bottom - 1, v.w, dy⟩]
   else if dy < 0 then [⟨v.x, v.y, v.w, -dy⟩]
   else [])

/-- `_queue_edge_tiles(dx, dy)` followed by `_flush_tile_queue`: all strip
clears happen while the (lazy) tile queues are chained, then the queued
tiles are blitted. -/
def queueEdgeTilesFlush (d : MapData) (cc : Nat) (b : Int → Int → Cell)
    (v : PRect) (dx dy : Int) : Int → Int → Cell :=
  let strips := edgeStrips v dx dy
  let cleared := strips.foldl (fun acc s => clearStrip acc cc v s) b
  strips.foldl (fun acc s => blitStripFromData d acc v s) cleared

/-- The buffer a full `redraw_tiles` produces for tile view `v`: clear the
whole buffer, then blit every visible tile of `v` at its cell. -/
def redrawBuffer (d : MapData) (cc : Nat) (v : PRect) : Int → Int → Cell :=
  fun i j => renderCell d cc (v.x + i) (v.y + j)

/-- Intermediate results of `BufferedRenderer.center` before the buffer
maintenance branch. -/
structure CenterCalc where
  viewRect : PRect
  left : Int
  top : Int
  xOff : Int
  yOff : Int
  anchored : Bool

/-- The un-anchored adjustment `center` performs per axis when camera
clamping is disabled (`m` map tiles, `vsize` tile-view tiles, `coordc` the
effective center coordinate, `tsize` the tile size, `left0/off0` the floor
division results, `d0` the tile delta computed before adjustment).
Returns the adjusted `(left, offset, axis-still-anchored)`. -/
def adjustUnanchored (m vsize half coordc tsize left0 off0 d0 : Int) :
    Int × Int × Bool :=
  if m < vsize ∨ left0 < 0 then (0, coordc - half, false)
  else if left0 + vsize > m then (m - vsize, off0 + d0 * tsize, false)
  else (left0, off0, true)

/-- `BufferedRenderer.center` up to (and excluding) the buffer-maintenance
branch: set the view-rect center, clamp it when requested, derive the tile
origin and sub-tile offset with `divmod`, and apply the un-anchored
adjustments when clamping is disabled. -/
def centerCalc (d : MapData) (s : RState) (cx cy : Int) : CenterCalc :=
  let vr0 := s.viewRect.setCenter cx cy
  let vr := if s.clampCamera then vr0.clamp s.mapRect else vr0
  let x := if s.clampCamera then vr.centerx else cx
  let y := if s.clampCamera then vr.centery else cy
  let tw := d.tileW
  let th := d.tileH
  let vw := s.tileView.w
  let vh := s.tileView.h
  let left0 := (x - s.halfW) / tw
  let xOff0 := (x - s.halfW) % tw
  let top0 := (y - s.halfH) / th
  let yOff0 := (y - s.halfH) % th
  let dx0 := left0 - s.tileView.x
  let dy0 := top0 - s.tileView.y
  if s.clampCamera then
    { viewRect := vr, left := left0, top := top0
      xOff := xOff0, yOff := yOff0, anchored := true }
  else
    let ax := adjustUnanchored d.mapW vw s.halfW x tw left0 xOff0 dx0
    let ay := adjustUnanchored d.mapH vh s.halfH y th top0 yOff0 dy0
    { viewRect := vr, left := ax.1, top := ay.1
      xOff := ax.2.1, yOff := ay.2.1, anchored := ax.2.2 && ay.2.2 }

/-- `BufferedRenderer.center(coords)` for integer pixel coordinates
(`round` is the identity there).  After `centerCalc`, the view change
decides between the incremental scroll-and-patch path, a forced full
redraw, and no buffer work at all. -/
def center (d : MapData) (s : RState) (cx cy : Int) : RState :=
  let c := centerCalc d s cx cy
  let dx := c.left - s.tileView.x
  let dy := c.top - s.tileView.y
  let viewChange := max |dx| |dy|
  let base : RState :=
    { s with viewRect := c.viewRect, xOffset := c.xOff, yOffset := c.yOff
             anchoredView := c.anchored }
  if viewChange ≠ 0 ∧ viewChange ≤ s.redrawCutoff then
    let scrolled := scrollBuffer s.buffer s.tileView.w s.tileView.h dx dy
    let v' := s.tileView.moveIp dx dy
    { base with tileView := v'
                buffer := queueEdgeTilesFlush d s.clearColor scrolled v' dx dy }
  else if viewChange > s.redrawCutoff then
    let v' := s.tileView.moveIp dx dy
    { base with tileView := v', buffer := redrawBuffer d s.clearColor v' }
  else base

/-! ## Coordinate translation (src/pyscroll/orthographic.py) -/

/-- `BufferedRenderer.get_center_offset`. -/
def getCenterOffset (s : RState) : Int × Int :=
  (-s.viewRect.centerx + s.halfW, -s.viewRect.centery + s.halfH)

/-- `BufferedRenderer.translate_point`. -/
def translatePoint (s : RState) (p : ℚ × ℚ) : Int × Int :=
  let mx := (getCenterOffset s).1
  let my := (getCenterOffset s).2
  if s.zoomLevel = 1 then (pyInt (p.1 + mx), pyInt (p.2 + my))
  else (pyRound ((p.1 + mx) * s.realRatioX), pyRound ((p.2 + my) * s.realRatioY))

/-- `BufferedRenderer.translate_points` — note the `int(c[0]) + sx` in the
zoom = 1 branch, truncating *before* adding the offset. -/
def translatePoints (s : RState) (ps : List (ℚ × ℚ)) : List (Int × Int) :=
  let sx := (getCenterOffset s).1
  let sy := (getCenterOffset s).2
  if s.zoomLevel = 1 then
    ps.map fun c => (pyInt c.1 + sx, pyInt c.2 + sy)
  else
    ps.map fun c =>
      (pyRound ((c.1 + sx) * s.realRatioX), pyRound ((c.2 + sy) * s.realRatioY))

/-- `BufferedRenderer.translate_rect`. -/
def translateRect (s : RState) (r : PRect) : PRect :=
  let mx := (getCenterOffset s).1
  let my := (getCenterOffset s).2
  if s.zoomLevel = 1 then ⟨r.x + mx, r.y + my, r.w, r.h⟩
  else
    ⟨pyRound ((r.x + mx) * s.realRatioX), pyRound ((r.y + my) * s.realRatioY),
     pyRound (r.w * s.realRatioX), pyRound (r.h * s.realRatioY)⟩

/-- `BufferedRenderer.translate_rects`. -/
def translateRects (s : RState) (rs : List PRect) : List PRect :=
  let sx := (getCenterOffset s).1
  let sy := (getCenterOffset s).2
  if s.zoomLevel = 1 then
    rs.map fun r => ⟨r.x + sx, r.y + sy, r.w, r.h⟩
  else
    rs.map fun r =>
      ⟨pyRound ((r.x + sx) * s.realRatioX), pyRound ((r.y + sy) * s.realRatioY),
       pyRound (r.w * s.realRatioX), pyRound (r.h * s.realRatioY)⟩

/-- `BufferedRenderer._initialize_buffers` (the fields relevant to
`center` and the buffer): the tile view gets `ceil(view/tile) + 1` tiles
per axis (`(a + b - 1) / b` is `math.ceil(a / b)` for positive sizes),
`map_rect` covers the map in pixels, the redraw cutoff is 1, the half
extents are floor halves of the view size, and the buffer is fully
redrawn. -/
def initializeBuffers (d : MapData) (s : RState) (viewW viewH : Int) : RState :=
  let tw := d.tileW
  let th := d.tileH
  let btw := (viewW + tw - 1) / tw + 1
  let bth := (viewH + th - 1) / th + 1
  { s with
    mapRect := ⟨0, 0, d.mapW * tw, d.mapH * th⟩
    viewRect := { s.viewRect with w := viewW, h := viewH }
    tileView := ⟨0, 0, btw, bth⟩
    redrawCutoff := 1
    halfW := viewW / 2
    halfH := viewH / 2
    xOffset := 0
    yOffset := 0
    buffer := redrawBuffer d s.clearColor ⟨0, 0, btw, bth⟩ }

/-- The buffer content addressed by `_tile_view` is pixel-identical to a
full `redraw_tiles()` at the same `_tile_view`. -/
def bufferMatchesRedraw (d : MapData) (s : RState) : Prop :=
  ∀ i j : Int, 0 ≤ i → i < s.tileView.w → 0 ≤ j → j < s.tileView.h →
    s.buffer i j = redrawBuffer d s.clearColor s.tileView i j

/-! ## Concrete instances used by claims and witnesses -/

/-- A 2×2-tile map with 16×16 tiles, one empty layer. -/
def demoData : MapData :=
  { mapW := 2, mapH := 2, tileW := 16, tileH := 16, layers := [0]
    tileImage := fun _ _ _ => none }

/-- A renderer state over `demoData` with a 64×64 view and camera clamping
enabled — exactly what `_initialize_buffers` produces for that setup. -/
def clampState : RState :=
  { clampCamera := true, mapRect := ⟨0, 0, 32, 32⟩
    viewRect := ⟨0, 0, 64, 64⟩, tileView := ⟨0, 0, 5, 5⟩
    halfW := 32, halfH := 32, xOffset := 0, yOffset := 0
    redrawCutoff := 1, anchoredView := true, clearColor := 0
    zoomLevel := 1, realRatioX := 1, realRatioY := 1
    buffer := redrawBuffer demoData 0 ⟨0, 0, 5, 5⟩ }

/-- A state whose cached center offset is `(-1, -1)`, at zoom 1. -/
def translateState : RState :=
  { clampCamera := false, mapRect := ⟨0, 0, 0, 0⟩
    viewRect := ⟨1, 1, 0, 0⟩, tileView := ⟨0, 0, 0, 0⟩
    halfW := 0, halfH := 0, xOffset := 0, yOffset := 0
    redrawCutoff := 1, anchoredView := true, clearColor := 0
    zoomLevel := 1, realRatioX := 1, realRatioY := 1
    buffer := fun _ _ => constCell 0 }

/-- The C5 instance: two frames of durations 0.5 and 1.0 (images 0 and 1),
looping, initial time 0, no jitter. -/
def c5Token : Except String AnimationToken :=
  mkAnimationToken ∅ [⟨0, 1/2, 1⟩, ⟨1, 1, 1⟩] 0 true 1 false 0 0

/-- The token `c5Token` constructs. -/
def c5TokenVal : AnimationToken :=
  { positions := ∅, frames := [⟨0, 1/2, 1⟩, ⟨1, 1, 1⟩], index := 0
    next := 1/2, loop := true, pingPong := false, direction := 1
    done := false, speedMultiplier := 1 }

/-- A non-looping, non-ping-pong token sitting at its last frame (the state
reached from a fresh 2-frame non-looping token after one `advance`). -/
def lastFrameToken : AnimationToken :=
  { positions := ∅, frames := [⟨0, 1/2, 1⟩, ⟨1, 1, 1⟩], index := 1
    next := 3/2, loop := false, pingPong := false, direction := 1
    done := false, speedMultiplier := 1 }

/-- A finished token. -/
def doneToken : AnimationToken :=
  { positions := ∅, frames := [⟨0, 1/2, 1⟩, ⟨1, 1, 1⟩], index := 1
    next := 3/2, loop := false, pingPong := false, direction := 1
    done := true, speedMultiplier := 1 }

/-- A single zero-duration looping frame: the worst case for the catch-up
loop of `update`. -/
def zeroDurationToken : AnimationToken :=
  { positions := ∅, frames := [⟨0, 0, 1⟩], index := 0
    next := 0, loop := true, pingPong := false, direction := 1
    done := false, speedMultiplier := 1 }

/-- An adapter clock in the default pause mode (freeze) with virtual time 10. -/
def freezeClock : AdapterClock :=
  { isPaused := false, lastTime := 10, pausedTime := 0, pauseModeSkipAhead := false }

/-- A token scheduled to fire at virtual time 10.3 — during the pause
window of the C7 scenario. -/
def pausedOverToken : AnimationToken :=
  { positions := ∅, frames := [⟨0, 1/2, 1⟩], index := 0
    next := 103/10, loop := true, pingPong := false, direction := 1
    done := false, speedMultiplier := 1 }

/-! ## Claims C5, C6, C7, C8, C10 -/

/-- **C5, counterexample.**  The claim quantifies over *every* non-looping
token, but a non-looping *ping-pong* token that has reached its last frame
does not set `done` there: the next `advance` reverses direction, changes
the index from 1 to 0 and returns frame 0, not the last frame.  The token
below is exactly the state a fresh 2-frame non-looping ping-pong token is in
after one `advance`. -/
theorem C5_pingpong_counterexample :
    let t : AnimationToken :=
      { positions := ∅, frames := [⟨0, 1/2, 1⟩, ⟨1, 1, 1⟩], index := 1
        next := 1, loop := false, pingPong := true, direction := 1
        done := false, speedMultiplier := 1 }
    (t.advance 2).1.index = 0 ∧ (t.advance 2).2 = ⟨0, 1/2, 1⟩ ∧
      (t.advance 2).2 ≠ t.currentFrame := by
  norm_num [AnimationToken.advance, AnimationToken.finishAdvance,
    AnimationToken.currentFrame]

/-- **C5 (amended): animation determinism.**
(1) From the initial state of a token with frame durations `[0.5, 1.0]`,
`loop=True`, initial time 0 and no jitter, `update(current_time=0.6,
elapsed_time=0.1)` yields frame index 1.
(2) For every non-looping token in the default (non-ping-pong) mode, the
`advance()` call made at the last frame sets `done`, keeps the index and
returns the last frame. (3) Once `done`, every further `advance()` returns
the same frame and leaves the token unchanged. -/
theorem C5_animation_determinism :
    (∀ t, c5Token = .ok t →
      (t.update (3/5) (1/10)).1.index = 1 ∧ (t.update (3/5) (1/10)).2.image = 1) ∧
    (∀ (t : AnimationToken) (ct : ℚ), t.loop = false → t.pingPong = false →
      t.done = false → t.index = t.frames.length - 1 →
      (t.advance ct).1.done = true ∧ (t.advance ct).1.index = t.index ∧
        (t.advance ct).2 = t.currentFrame) ∧
    (∀ (t : AnimationToken) (ct : ℚ), t.done = true →
      t.advance ct = (t, t.currentFrame)) := by
  refine ⟨?_, ?_, ?_⟩
  · intro t h
    rw [show c5Token = .ok c5TokenVal from by
      norm_num [c5Token, mkAnimationToken, c5TokenVal]
      exact fun h => absurd h (by simp)] at h
    cases h
    norm_num [AnimationToken.update, AnimationToken.updateLoop,
      AnimationToken.advance, AnimationToken.finishAdvance,
      AnimationToken.currentFrame, c5TokenVal]
  · intro t ct hl hp hd hi
    simp only [AnimationToken.advance, hd, hp, hl, hi, Bool.false_eq_true,
      if_false, if_true, if_pos rfl]
    simp [AnimationToken.currentFrame, hi]
  · intro t ct hd
    simp [AnimationToken.advance, hd]

/-- Closed witness for `C5_animation_determinism`. -/
theorem C5_animation_determinism_witness :
    ((c5TokenVal.update (3/5) (1/10)).1.index = 1 ∧
      (c5TokenVal.update (3/5) (1/10)).2.image = 1) ∧
    ((lastFrameToken.advance 7).1.done = true ∧
      (lastFrameToken.advance 7).1.index = lastFrameToken.index ∧
      (lastFrameToken.advance 7).2 = lastFrameToken.currentFrame) ∧
    doneToken.advance 9 = (doneToken, doneToken.currentFrame) :=
  ⟨C5_animation_determinism.1 c5TokenVal (by
      norm_num [c5Token, mkAnimationToken, c5TokenVal]
      exact fun h => absurd h (by simp)),
   C5_animation_determinism.2.1 lastFrameToken 7 rfl rfl rfl (by
      norm_num [lastFrameToken]),
   C5_animation_determinism.2.2 doneToken 9 rfl⟩

/-- The catch-up loop performs at most as many `advance` calls as its fuel. -/
theorem updateLoop_count_le (fuel : Nat) :
    ∀ (t : AnimationToken) (ct : ℚ), (t.updateLoop ct fuel).2 ≤ fuel := by
  induction fuel with
  | zero => intro t ct; simp [AnimationToken.updateLoop]
  | succ n ih =>
    intro t ct
    simp only [AnimationToken.updateLoop]
    split
    · simpa using ih ((t.advance t.next).1) ct
    · simp

/-- **C6, counterexample.**  The claim bounds the catch-up loop by
`4 × frame_count` advance iterations, but the Python loop increments the
safety counter *after* advancing and only breaks once the counter exceeds
`max_steps`, so one more advance fits: on a 1-frame zero-duration looping
token (reached from the constructor as shown) an `update` far in the future
performs 5 advances while `4 × frame_count = 4`. -/
theorem C6_cap_counterexample :
    mkAnimationToken ∅ [⟨0, 0, 1⟩] 0 true 1 false 0 0 = .ok zeroDurationToken ∧
    zeroDurationToken.updateAdvanceCount 10 = 5 ∧
    zeroDurationToken.frames.length * 4 = 4 := by
  refine ⟨?_, ?_, by norm_num [zeroDurationToken]⟩
  · norm_num [mkAnimationToken, zeroDurationToken]
  · norm_num [AnimationToken.updateAdvanceCount, AnimationToken.updateLoop,
      AnimationToken.advance, AnimationToken.finishAdvance, zeroDurationToken]

/-- **C6 (amended): termination of the catch-up loop.**  For every token
state and all time arguments — zero frame durations included —
`AnimationToken.update` terminates; its catch-up loop performs at most
`4 × frame_count + 1` calls to `advance` per `update` call (the safety
counter breaks the loop after the `4 × frame_count + 1`-st advance).
The `elapsed_time` argument plays no role in the bound. -/
theorem C6_update_terminates_bounded (t : AnimationToken) (ct : ℚ) :
    t.updateAdvanceCount ct ≤ t.frames.length * 4 + 1 := by
  unfold AnimationToken.updateAdvanceCount
  split
  · exact Nat.zero_le _
  · exact updateLoop_count_le _ t ct

/-- **C7 (code bug): freeze-mode pause is not a freeze across resume.**
While paused the virtual clock `_last_time` indeed does not advance, but
`resume_animations` calls `_update_time`, which in the default (freeze)
mode sets `_last_time = time.time()` — the virtual clock jumps across the
whole pause.  A token scheduled at 10.3 whose owner pauses at wall time 10
and resumes at wall time 20 is due immediately on resume, although no
unpaused time passed: the code contradicts the spec's freeze mode and its
own docstring ("resume ... from where they left off"). -/
theorem C7_freeze_resume_code_bug :
    (pauseAnimations freezeClock 10).lastTime = 10 ∧
    (updateTime (pauseAnimations freezeClock 10) 999).lastTime = 10 ∧
    (resumeAnimations (pauseAnimations freezeClock 10) 20).lastTime = 20 ∧
    animationDue pausedOverToken
      ((resumeAnimations (pauseAnimations freezeClock 10) 20).lastTime) ∧
    ¬ animationDue pausedOverToken ((pauseAnimations freezeClock 10).lastTime) := by
  norm_num [pauseAnimations, resumeAnimations, updateTime, animationDue,
    freezeClock, pausedOverToken]

/-- **C8: invalid arguments fail immediately.**  Each of the five
invalid-argument cases — an empty item set for the quadtree, an animation
token with zero frames, an animation speed multiplier ≤ 0, a zoom value
≤ 0, and selecting both colorkey and alpha transparency — makes the very
call that introduced it return an invalid-argument error (`ValueError` in
the source), synchronously and without any retry. -/
theorem C8_invalid_arguments_fail :
    (∀ (d : Nat) (b : Option PRect),
      fastQuadTree [] d b = .error "Items must not be empty") ∧
    (∀ ps it loop sm pp rj js,
      mkAnimationToken ps [] it loop sm pp rj js =
        .error "Frames sequence cannot be empty.") ∧
    (∀ (q : List AnimationToken) (m : ℚ), m ≤ 0 →
      setAnimationSpeedMultiplier q m =
        .error "Multiplier must be greater than zero.") ∧
    (∀ (sz : Int × Int) (v : ℚ), v ≤ 0 →
      calculateZoomBufferSize sz v = .error "zoom level cannot be zero or less") ∧
    (∀ c : Int × Int × Int,
      selectClearColor (some c) true = .error "cannot select both colorkey and alpha") := by
  refine ⟨fun d b => rfl, fun ps it loop sm pp rj js => rfl, ?_, ?_, fun c => rfl⟩
  · intro q m hm
    simp [setAnimationSpeedMultiplier, if_pos hm]
  · intro sz v hv
    simp [calculateZoomBufferSize, if_pos hv]

/-- Closed witness for `C8_invalid_arguments_fail`. -/
theorem C8_invalid_arguments_fail_witness :
    fastQuadTree [] 4 none = .error "Items must not be empty" ∧
    mkAnimationToken ∅ [] 0 true 1 false 0 0 =
      .error "Frames sequence cannot be empty." ∧
    setAnimationSpeedMultiplier [] 0 =
      .error "Multiplier must be greater than zero." ∧
    calculateZoomBufferSize (640, 480) 0 =
      .error "zoom level cannot be zero or less" ∧
    selectClearColor (some (0, 0, 0)) true =
      .error "cannot select both colorkey and alpha" :=
  ⟨C8_invalid_arguments_fail.1 4 none,
   C8_invalid_arguments_fail.2.1 ∅ 0 true 1 false 0 0,
   C8_invalid_arguments_fail.2.2.1 [] 0 le_rfl,
   C8_invalid_arguments_fail.2.2.2.1 (640, 480) 0 le_rfl,
   C8_invalid_arguments_fail.2.2.2.2 (0, 0, 0)⟩

/-- **C10: the `elapsed_time` argument never influences `update`.**
For every token state, every `current_time` and any two `elapsed_time`
arguments, `AnimationToken.update` returns the same frame and leaves the
token in the same state: the parameter is accepted and ignored, exactly as
in the source. -/
theorem C10_elapsed_time_irrelevant (t : AnimationToken) (ct e1 e2 : ℚ) :
    t.update ct e1 = t.update ct e2 := rfl

/-! ## Claims C3, C4: the `center` contract -/

theorem setCenter_centerx (r : PRect) (cx cy : Int) :
    (r.setCenter cx cy).centerx = cx := by
  simp [PRect.setCenter, PRect.centerx]

theorem setCenter_centery (r : PRect) (cx cy : Int) :
    (r.setCenter cx cy).centery = cy := by
  simp [PRect.setCenter, PRect.centery]

/-- How `center` relates to `centerCalc`: the offsets, view rect and
anchoring come straight from `centerCalc`, the tile-view origin always ends
at `(left, top)` (all three buffer branches move it there), its size and
the half extents are untouched. -/
theorem center_fields (d : MapData) (s : RState) (cx cy : Int) :
    (center d s cx cy).xOffset = (centerCalc d s cx cy).xOff ∧
    (center d s cx cy).yOffset = (centerCalc d s cx cy).yOff ∧
    (center d s cx cy).viewRect = (centerCalc d s cx cy).viewRect ∧
    (center d s cx cy).halfW = s.halfW ∧
    (center d s cx cy).halfH = s.halfH ∧
    (center d s cx cy).tileView.x = (centerCalc d s cx cy).left ∧
    (center d s cx cy).tileView.y = (centerCalc d s cx cy).top ∧
    (center d s cx cy).tileView.w = s.tileView.w ∧
    (center d s cx cy).tileView.h = s.tileView.h := by
  unfold center
  dsimp only
  split_ifs with h1 h2
  · simp [PRect.moveIp]
  · simp [PRect.moveIp]
  · have hvc : max |(centerCalc d s cx cy).left - s.tileView.x|
        |(centerCalc d s cx cy).top - s.tileView.y| = 0 := by
      by_contra h
      exact h1 ⟨h, not_lt.mp h2⟩
    have hax : (centerCalc d s cx cy).left - s.tileView.x = 0 :=
      abs_nonpos_iff.mp (hvc ▸ le_max_left _ _)
    have hay : (centerCalc d s cx cy).top - s.tileView.y = 0 :=
      abs_nonpos_iff.mp (hvc ▸ le_max_right _ _)
    refine ⟨rfl, rfl, rfl, rfl, rfl, ?_, ?_, rfl, rfl⟩
    · show s.tileView.x = (centerCalc d s cx cy).left
      omega
    · show s.tileView.y = (centerCalc d s cx cy).top
      omega

/-- `(c - (c - half) % t - half) % t = 0`: the divmod remainder aligns. -/
theorem align_emod (c half t : Int) : (c - (c - half) % t - half) % t = 0 := by
  have h := Int.ediv_add_emod (c - half) t
  have e : c - (c - half) % t - half = t * ((c - half) / t) := by linarith
  rw [e]; exact Int.mul_emod_right _ _

/-- Same, after the un-anchored edge adjustment adds `k` whole tiles. -/
theorem align_emod_shift (c half t k : Int) :
    (c - ((c - half) % t + k * t) - half) % t = 0 := by
  have h := Int.ediv_add_emod (c - half) t
  have e : c - ((c - half) % t + k * t) - half = t * ((c - half) / t - k) := by
    linear_combination -h
  rw [e]; exact Int.mul_emod_right _ _

/-- Whatever branch the un-anchored adjustment takes, the offset it
returns keeps the divmod alignment with the effective center. -/
theorem adjustUnanchored_align (m vs half c t d0 : Int) :
    (c - (adjustUnanchored m vs half c t ((c - half) / t) ((c - half) % t)
        d0).2.1 - half) % t = 0 := by
  unfold adjustUnanchored
  split_ifs
  · have h : c - (c - half) - half = 0 := by ring
    rw [h, Int.zero_emod]
  · exact align_emod_shift _ _ _ _
  · exact align_emod _ _ _

/-- The alignment invariant holds for the *effective* (post-clamp) center
on both axes, whatever branch `centerCalc` takes. -/
theorem centerCalc_alignment (d : MapData) (s : RState) (cx cy : Int) :
    ((centerCalc d s cx cy).viewRect.centerx - (centerCalc d s cx cy).xOff -
        s.halfW) % d.tileW = 0 ∧
    ((centerCalc d s cx cy).viewRect.centery - (centerCalc d s cx cy).yOff -
        s.halfH) % d.tileH = 0 := by
  unfold centerCalc
  dsimp only
  split_ifs with hc
  · exact ⟨align_emod _ _ _, align_emod _ _ _⟩
  · rw [setCenter_centerx, setCenter_centery]
    exact ⟨adjustUnanchored_align _ _ _ _ _ _, adjustUnanchored_align _ _ _ _ _ _⟩

/-- **C3, counterexample.**  With camera clamping enabled the effective
camera position silently differs from the requested one near the map edge,
and the claimed identity fails on the *requested* center: on a 2×2-tile
map (16×16 tiles) with a 64×64 view, after `center((100, 100))` the x
residue is 4, not 0. -/
theorem C3_counterexample :
    (100 - (center demoData clampState 100 100).xOffset -
        (center demoData clampState 100 100).halfW) % demoData.tileW ≠ 0 := by
  decide

/-- **C3 (amended): viewport tile-alignment invariant.**  After every
`center()` call — for every map size, view size, zoom and clamping setting —
the identity `(center.x - x_offset - half_width) % tile_width = 0` (and its
y analogue) holds for the *effective* center, i.e. the possibly clamped
`view_rect` center; when clamping is disabled the effective center is the
requested one, so the identity holds as originally claimed. -/
theorem C3_tile_alignment (d : MapData) (s : RState) (cx cy : Int) :
    (((center d s cx cy).viewRect.centerx - (center d s cx cy).xOffset -
        (center d s cx cy).halfW) % d.tileW = 0 ∧
      ((center d s cx cy).viewRect.centery - (center d s cx cy).yOffset -
        (center d s cx cy).halfH) % d.tileH = 0) ∧
    (s.clampCamera = false →
      (cx - (center d s cx cy).xOffset - (center d s cx cy).halfW) %
          d.tileW = 0 ∧
      (cy - (center d s cx cy).yOffset - (center d s cx cy).halfH) %
          d.tileH = 0) := by
  obtain ⟨hx, hy, hvr, hhw, hhh, -, -, -, -⟩ := center_fields d s cx cy
  have halign := centerCalc_alignment d s cx cy
  refine ⟨⟨by rw [hx, hvr, hhw]; exact halign.1,
          by rw [hy, hvr, hhh]; exact halign.2⟩, ?_⟩
  intro hclamp
  have hcx : (centerCalc d s cx cy).viewRect.centerx = cx := by
    unfold centerCalc
    simp [hclamp, setCenter_centerx]
  have hcy : (centerCalc d s cx cy).viewRect.centery = cy := by
    unfold centerCalc
    simp [hclamp, setCenter_centery]
  constructor
  · rw [hx, hhw]
    nth_rewrite 1 [← hcx]
    exact halign.1
  · rw [hy, hhh]
    nth_rewrite 1 [← hcy]
    exact halign.2

/-- Closed witness for `C3_tile_alignment`: an unclamped state, where the
requested-center form of the identity holds. -/
theorem C3_tile_alignment_witness :
    (33 - (center demoData translateState 33 7).xOffset -
        (center demoData translateState 33 7).halfW) % demoData.tileW = 0 ∧
    (7 - (center demoData translateState 33 7).yOffset -
        (center demoData translateState 33 7).halfH) % demoData.tileH = 0 :=
  (C3_tile_alignment demoData translateState 33 7).2 rfl

/-- One axis of the C4 bound: with the map no larger than the view on this
axis, the clamped-and-centered tile origin `((mw*t)/2 - V/2) / t` lies in
`[mw - vsize, 0]` for the initialized tile-view size
`vsize = ceil(V/t) + 1`. -/
theorem clampOriginBound (mw t V vsize : Int) (ht : 0 < t) (hmw : 0 < mw)
    (hMV : mw * t ≤ V) (hvsz : vsize = (V + t - 1) / t + 1) :
    mw - vsize ≤ (mw * t / 2 - V / 2) / t ∧ (mw * t / 2 - V / 2) / t ≤ 0 := by
  have hM : 0 < mw * t := mul_pos hmw ht
  constructor
  · rw [hvsz]
    refine (Int.le_ediv_iff_mul_le ht).mpr ?_
    have hC := Int.ediv_add_emod (V + t - 1) t
    have hCr0 : 0 ≤ (V + t - 1) % t := Int.emod_nonneg _ (by omega)
    have hCr1 : (V + t - 1) % t < t := Int.emod_lt_of_pos _ ht
    have h2M := Int.ediv_add_emod (mw * t) 2
    have h2Mr0 : 0 ≤ mw * t % 2 := Int.emod_nonneg _ (by norm_num)
    have h2Mr1 : mw * t % 2 < 2 := Int.emod_lt_of_pos _ (by norm_num)
    have h2V := Int.ediv_add_emod V 2
    have h2Vr0 : 0 ≤ V % 2 := Int.emod_nonneg _ (by norm_num)
    have h2Vr1 : V % 2 < 2 := Int.emod_lt_of_pos _ (by norm_num)
    have hexp : (mw - ((V + t - 1) / t + 1)) * t =
        mw * t - t * ((V + t - 1) / t) - t := by ring
    rw [hexp]
    linarith
  · have hN : mw * t / 2 - V / 2 ≤ 0 := by
      have := Int.ediv_le_ediv (c := 2) (by norm_num) hMV
      omega
    calc (mw * t / 2 - V / 2) / t ≤ 0 / t := Int.ediv_le_ediv ht hN
    _ = 0 := Int.zero_ediv t

/-- **C4, counterexample.**  When the map is smaller than the view the
interval `[0, map_tiles - tile_view_size]` claimed for the tile-view origin
is empty (here `[0, 2 - 5]`), and the origin actually produced, −1, is in
particular not in it. -/
theorem C4_counterexample :
    (center demoData clampState 16 16).tileView.x = -1 ∧
    ¬ (0 ≤ (center demoData clampState 16 16).tileView.x ∧
       (center demoData clampState 16 16).tileView.x ≤
         demoData.mapW - clampState.tileView.w) := by
  decide

/-- **C4 (amended): clamp keeps the tile view against the map.**  With
camera clamping enabled and the map no larger than the view on both axes,
every `center()` call leaves the `_tile_view` origin inside
`[map_tiles - tile_view_size, 0]` on both axes (the claimed interval
`[0, map_tiles - tile_view_size]` reversed, which is empty in this
regime).  The hypotheses are exactly the relations `_initialize_buffers`
establishes and `center` preserves. -/
theorem C4_clamp_boundary (d : MapData) (s : RState) (cx cy : Int)
    (hclamp : s.clampCamera = true)
    (hmap : s.mapRect = ⟨0, 0, d.mapW * d.tileW, d.mapH * d.tileH⟩)
    (hhw : s.halfW = s.viewRect.w / 2) (hhh : s.halfH = s.viewRect.h / 2)
    (hvw : s.tileView.w = (s.viewRect.w + d.tileW - 1) / d.tileW + 1)
    (hvh : s.tileView.h = (s.viewRect.h + d.tileH - 1) / d.tileH + 1)
    (htw : 0 < d.tileW) (hth : 0 < d.tileH)
    (hmw : 0 < d.mapW) (hmh : 0 < d.mapH)
    (hsx : d.mapW * d.tileW ≤ s.viewRect.w)
    (hsy : d.mapH * d.tileH ≤ s.viewRect.h) :
    (d.mapW - s.tileView.w ≤ (center d s cx cy).tileView.x ∧
      (center d s cx cy).tileView.x ≤ 0) ∧
    (d.mapH - s.tileView.h ≤ (center d s cx cy).tileView.y ∧
      (center d s cx cy).tileView.y ≤ 0) := by
  obtain ⟨-, -, -, -, -, hvx, hvy, -, -⟩ := center_fields d s cx cy
  have hVx : 0 < s.viewRect.w := lt_of_lt_of_le (mul_pos hmw htw) hsx
  have hVy : 0 < s.viewRect.h := lt_of_lt_of_le (mul_pos hmh hth) hsy
  have hleft : (centerCalc d s cx cy).left =
      (d.mapW * d.tileW / 2 - s.viewRect.w / 2) / d.tileW := by
    unfold centerCalc
    simp only [hclamp, if_true, ite_true]
    have hb : (s.viewRect.setCenter cx cy).clamp s.mapRect =
        { s.viewRect.setCenter cx cy with
            x := Int.tdiv (d.mapW * d.tileW) 2 -
              Int.tdiv (s.viewRect.setCenter cx cy).w 2
            y := Int.tdiv (d.mapH * d.tileH) 2 -
              Int.tdiv (s.viewRect.setCenter cx cy).h 2 } := by
      unfold PRect.clamp
      rw [hmap]
      have hwx : (s.viewRect.setCenter cx cy).w ≥ d.mapW * d.tileW := by
        simpa [PRect.setCenter] using hsx
      have hwy : (s.viewRect.setCenter cx cy).h ≥ d.mapH * d.tileH := by
        simpa [PRect.setCenter] using hsy
      simp [hwx, hwy]
    rw [hb]
    simp only [PRect.centerx, PRect.setCenter]
    rw [Int.tdiv_eq_ediv (by positivity) (by norm_num)]
    congr 1
    rw [hhw]
    ring_nf
  have htop : (centerCalc d s cx cy).top =
      (d.mapH * d.tileH / 2 - s.viewRect.h / 2) / d.tileH := by
    unfold centerCalc
    simp only [hclamp, if_true, ite_true]
    have hb : (s.viewRect.setCenter cx cy).clamp s.mapRect =
        { s.viewRect.setCenter cx cy with
            x := Int.tdiv (d.mapW * d.tileW) 2 -
              Int.tdiv (s.viewRect.setCenter cx cy).w 2
            y := Int.tdiv (d.mapH * d.tileH) 2 -
              Int.tdiv (s.viewRect.setCenter cx cy).h 2 } := by
      unfold PRect.clamp
      rw [hmap]
      have hwx : (s.viewRect.setCenter cx cy).w ≥ d.mapW * d.tileW := by
        simpa [PRect.setCenter] using hsx
      have hwy : (s.viewRect.setCenter cx cy).h ≥ d.mapH * d.tileH := by
        simpa [PRect.setCenter] using hsy
      simp [hwx, hwy]
    rw [hb]
    simp only [PRect.centery, PRect.setCenter]
    rw [Int.tdiv_eq_ediv (by positivity) (by norm_num)]
    congr 1
    rw [hhh]
    ring_nf
  constructor
  · rw [hvx, hleft, hvw]
    exact clampOriginBound d.mapW d.tileW s.viewRect.w _ htw hmw hsx rfl
  · rw [hvy, htop, hvh]
    exact clampOriginBound d.mapH d.tileH s.viewRect.h _ hth hmh hsy rfl

/-- Closed witness for `C4_clamp_boundary`. -/
theorem C4_clamp_boundary_witness :
    ((demoData.mapW - clampState.tileView.w ≤
        (center demoData clampState 16 16).tileView.x ∧
      (center demoData clampState 16 16).tileView.x ≤ 0) ∧
     (demoData.mapH - clampState.tileView.h ≤
        (center demoData clampState 16 16).tileView.y ∧
      (center demoData clampState 16 16).tileView.y ≤ 0)) :=
  C4_clamp_boundary demoData clampState 16 16 rfl (by decide) (by decide)
    (by decide) (by decide) (by decide) (by decide) (by decide)
    (by decide) (by decide) (by decide) (by decide)

/-! ## Claim C9: batch coordinate translation -/

theorem pyInt_intCast (n : Int) : pyInt (n : ℚ) = n := by
  unfold pyInt
  split_ifs <;> simp

theorem pyInt_intCast_add (n m : Int) : pyInt ((n : ℚ) + (m : ℚ)) = n + m := by
  rw [show ((n : ℚ) + (m : ℚ)) = ((n + m : Int) : ℚ) by push_cast; ring]
  exact pyInt_intCast _

/-- **C9, counterexample.**  At zoom 1, `translate_point` computes
`int(point[0] + mx)` but `translate_points` computes `int(c[0]) + sx`:
truncation before versus after adding the center offset.  For the point
`(0.7, 0)` and offset `(-1, -1)` the batch result is `(-1, -1)` while the
per-point result is `(0, -1)`. -/
theorem C9_counterexample :
    translatePoints translateState [(7/10, 0)] ≠
      [translatePoint translateState (7/10, 0)] := by
  have h1 : translatePoints translateState [(7/10, 0)] = [(-1, -1)] := by
    norm_num [translatePoints, translateState, getCenterOffset, pyInt,
      PRect.centerx, PRect.centery, Int.tdiv]
  have h2 : translatePoint translateState (7/10, 0) = (0, -1) := by
    norm_num [translatePoint, translateState, getCenterOffset, pyInt,
      PRect.centerx, PRect.centery, Int.tdiv]
    rw [show ((-1 : ℚ)) = ((-1 : Int) : ℚ) by norm_num]
    exact Int.ceil_intCast _
  rw [h1, h2]
  decide

/-- **C9 (amended): batch translation equivalence.**  For every state and
every list of *integer-coordinate* points, `translate_points` returns
exactly `[translate_point(p) for p in ps]` (for fractional points the two
differ at zoom 1, where the batch variant truncates before adding the
offset); and for every state and every list of rects, `translate_rects`
returns exactly `[translate_rect(r) for r in rs]`. -/
theorem C9_batch_equivalence :
    (∀ (s : RState) (ps : List (ℚ × ℚ)),
      (∀ p ∈ ps, p.1.den = 1 ∧ p.2.den = 1) →
      translatePoints s ps = ps.map (translatePoint s)) ∧
    (∀ (s : RState) (rs : List PRect),
      translateRects s rs = rs.map (translateRect s)) := by
  constructor
  · intro s ps hps
    unfold translatePoints
    dsimp only
    split_ifs with hz
    · refine List.map_congr_left fun p hp => ?_
      obtain ⟨h1, h2⟩ := hps p hp
      have e1 : ((p.1.num : Int) : ℚ) = p.1 := Rat.coe_int_num_of_den_eq_one h1
      have e2 : ((p.2.num : Int) : ℚ) = p.2 := Rat.coe_int_num_of_den_eq_one h2
      simp only [translatePoint, hz, if_true, ite_true]
      rw [← e1, ← e2, pyInt_intCast_add, pyInt_intCast_add,
        pyInt_intCast, pyInt_intCast]
    · refine List.map_congr_left fun p hp => ?_
      simp only [translatePoint, hz, if_false, ite_false]
  · intro s rs
    unfold translateRects
    dsimp only
    split_ifs with hz
    · refine List.map_congr_left fun r hr => ?_
      simp only [translateRect, hz, if_true, ite_true]
    · refine List.map_congr_left fun r hr => ?_
      simp only [translateRect, hz, if_false, ite_false]

/-- Closed witness for `C9_batch_equivalence`. -/
theorem C9_batch_equivalence_witness :
    translatePoints translateState [((2 : ℚ), (3 : ℚ))] =
      [translatePoint translateState ((2 : ℚ), (3 : ℚ))] ∧
    translateRects translateState [⟨1, 2, 3, 4⟩] =
      [translateRect translateState ⟨1, 2, 3, 4⟩] :=
  ⟨C9_batch_equivalence.1 translateState [((2 : ℚ), (3 : ℚ))]
      (by intro p hp; simp at hp; rw [hp]; norm_num),
   C9_batch_equivalence.2 translateState [⟨1, 2, 3, 4⟩]⟩

/-! ## Claim C2: scroll-and-patch versus full redraw -/

/-- A blit stack reads only the destination cell's own pixel: agreeing
inputs give agreeing outputs. -/
theorem blitStack_override (L : List Img) :
    ∀ (p q : Cell) (pos : Nat), p pos = q pos →
      blitStack p L pos = blitStack q L pos := by
  induction L with
  | nil => intro p q pos h; exact h
  | cons img L ih =>
    intro p q pos h
    exact ih _ _ _ (by simp [blitStack, blitImg, h])

/-- Redrawing the same image stack over its own output changes nothing
(pygame blits are masked per-pixel overwrites — "tiles are idempotent to
redraw"). -/
theorem blitStack_dup (L : List Img) :
    ∀ (p : Cell) (pos : Nat),
      blitStack (blitStack p L) L pos = blitStack p L pos := by
  induction L with
  | nil => intro p pos; rfl
  | cons img L ih =>
    intro p pos
    show blitStack (blitImg (blitStack p (img :: L)) img) L pos =
      blitStack (blitImg p img) L pos
    rcases h : img pos with _ | c
    · calc blitStack (blitImg (blitStack p (img :: L)) img) L pos
          = blitStack (blitStack (blitImg p img) L) L pos :=
            blitStack_override L _ _ pos (by simp [blitImg, h, blitStack])
      _ = blitStack (blitImg p img) L pos := ih _ pos
    · exact blitStack_override L _ _ pos (by simp [blitImg, h])

/-- Pointwise description of the chained `_clear_surface` calls of
`_queue_edge_tiles`: a cell inside any of the strips is cleared, other
cells keep their content. -/
theorem foldl_clear_apply (cc : Nat) (v : PRect) (L : List PRect) :
    ∀ (b : Int → Int → Cell) (i j : Int),
      (L.foldl (fun acc st => clearStrip acc cc v st) b) i j =
        if L.any (fun st => decide (cellInStrip v st i j)) then constCell cc
        else b i j := by
  induction L with
  | nil => intro b i j; simp
  | cons st L ih =>
    intro b i j
    rw [List.foldl_cons, ih]
    by_cases hL : L.any (fun st => decide (cellInStrip v st i j))
    · simp [hL]
    · by_cases hst : cellInStrip v st i j <;>
        simp [hL, hst, clearStrip]

/-- Pointwise description of the flush of the chained strip queues: if a
cell lies in some strip and its current content is either the clear color
or already the fully redrawn content, the flush leaves it fully redrawn;
cells in no strip are untouched. -/
theorem foldl_blit_from_clear (d : MapData) (cc : Nat) (v : PRect)
    (L : List PRect) :
    ∀ (b : Int → Int → Cell) (i j : Int),
      (L.any (fun st => decide (cellInStrip v st i j)) = true →
        b i j = constCell cc ∨
        b i j = renderCell d cc (v.x + i) (v.y + j)) →
      (L.foldl (fun acc st => blitStripFromData d acc v st) b) i j =
        if L.any (fun st => decide (cellInStrip v st i j)) then
          renderCell d cc (v.x + i) (v.y + j)
        else b i j := by
  induction L with
  | nil => intro b i j _; simp
  | cons st L ih =>
    intro b i j hpre
    rw [List.foldl_cons]
    by_cases hst : cellInStrip v st i j
    · have hbv : blitStripFromData d b v st i j =
          renderCell d cc (v.x + i) (v.y + j) := by
        have hb := hpre (by simp [hst])
        rcases hb with hb | hb <;>
          · funext pos
            simp only [blitStripFromData, if_pos hst, hb]
            first
            | rfl
            | exact blitStack_dup _ _ pos
      rw [ih _ i j (fun _ => Or.inr hbv)]
      simp [hst, hbv]
    · have hbv : blitStripFromData d b v st i j = b i j := by
        simp [blitStripFromData, hst]
      rw [ih (blitStripFromData d b v st) i j
        (fun h => by rw [hbv]; exact hpre (by simp [h]))]
      simp [hst, hbv]

/-- A cell of the moved view that no edge strip covers has an in-bounds
scroll source: the strips cover exactly the cells the scroll could not
fill. -/
theorem stale_covered (v' : PRect) (dx dy i j : Int)
    (hdx : -1 ≤ dx ∧ dx ≤ 1) (hdy : -1 ≤ dy ∧ dy ≤ 1)
    (hi : 0 ≤ i) (hi2 : i < v'.w) (hj : 0 ≤ j) (hj2 : j < v'.h)
    (hnone : ∀ st ∈ edgeStrips v' dx dy, ¬ cellInStrip v' st i j) :
    0 ≤ i + dx ∧ i + dx < v'.w ∧ 0 ≤ j + dy ∧ j + dy < v'.h := by
  have hxcase : dx = -1 ∨ dx = 0 ∨ dx = 1 := by omega
  have hycase : dy = -1 ∨ dy = 0 ∨ dy = 1 := by omega
  have hx : 0 ≤ i + dx ∧ i + dx < v'.w := by
    rcases hxcase with h | h | h <;> subst h
    · have hmem : (⟨v'.x, v'.y, 1, v'.h⟩ : PRect) ∈ edgeStrips v' (-1) dy := by
        unfold edgeStrips
        norm_num
      have hst := hnone _ hmem
      unfold cellInStrip at hst
      dsimp at hst
      omega
    · omega
    · have hmem : (⟨v'.right - 1, v'.y, 1, v'.h⟩ : PRect) ∈
          edgeStrips v' 1 dy := by
        unfold edgeStrips
        norm_num
      have hst := hnone _ hmem
      unfold cellInStrip at hst
      unfold PRect.right at hst
      dsimp at hst
      omega
  have hy : 0 ≤ j + dy ∧ j + dy < v'.h := by
    rcases hycase with h | h | h <;> subst h
    · have hmem : (⟨v'.x, v'.y, v'.w, 1⟩ : PRect) ∈ edgeStrips v' dx (-1) := by
        unfold edgeStrips
        rcases hxcase with h | h | h <;> subst h <;> norm_num
      have hst := hnone _ hmem
      unfold cellInStrip at hst
      dsimp at hst
      omega
    · omega
    · have hmem : (⟨v'.x, v'.bottom - 1, v'.w, 1⟩ : PRect) ∈
          edgeStrips v' dx 1 := by
        unfold edgeStrips
        rcases hxcase with h | h | h <;> subst h <;> norm_num
      have hst := hnone _ hmem
      unfold cellInStrip at hst
      unfold PRect.bottom at hst
      dsimp at hst
      omega
  exact ⟨hx.1, hx.2, hy.1, hy.2⟩

/-- Correctness of one incremental scroll-and-patch: if the buffer matched
a full redraw at tile view `v`, then after `Surface.scroll`, the edge-strip
clears and the queued-tile flush, it matches a full redraw at the moved
view `v.move(dx, dy)` — for the single-tile deltas the redraw cutoff
admits. -/
theorem patch_step (d : MapData) (cc : Nat) (b : Int → Int → Cell)
    (v : PRect) (dx dy : Int)
    (hdx : -1 ≤ dx ∧ dx ≤ 1) (hdy : -1 ≤ dy ∧ dy ≤ 1)
    (hb : ∀ i j : Int, 0 ≤ i → i < v.w → 0 ≤ j → j < v.h →
      b i j = renderCell d cc (v.x + i) (v.y + j)) :
    ∀ i j : Int, 0 ≤ i → i < v.w → 0 ≤ j → j < v.h →
      queueEdgeTilesFlush d cc (scrollBuffer b v.w v.h dx dy)
          (v.moveIp dx dy) dx dy i j =
        renderCell d cc ((v.moveIp dx dy).x + i) ((v.moveIp dx dy).y + j) := by
  intro i j hi hi2 hj hj2
  set v' := v.moveIp dx dy with hv'
  have hvw : v'.w = v.w := rfl
  have hvh : v'.h = v.h := rfl
  unfold queueEdgeTilesFlush
  have hclear := foldl_clear_apply cc v' (edgeStrips v' dx dy)
    (scrollBuffer b v.w v.h dx dy) i j
  rw [foldl_blit_from_clear d cc v' (edgeStrips v' dx dy) _ i j
    (fun h => by rw [hclear, if_pos h]; exact Or.inl rfl)]
  by_cases hany : (edgeStrips v' dx dy).any
      (fun st => decide (cellInStrip v' st i j))
  · rw [if_pos hany]
  · rw [if_neg hany, hclear, if_neg hany]
    have hnone : ∀ st ∈ edgeStrips v' dx dy, ¬ cellInStrip v' st i j := by
      intro st hst hin
      exact (List.any_eq_false.mp (Bool.not_eq_true _ ▸ hany) st hst)
        (by simpa using hin)
    obtain ⟨h1, h2, h3, h4⟩ := stale_covered v' dx dy i j hdx hdy hi
      (hvw ▸ hi2) hj (hvh ▸ hj2) hnone
    unfold scrollBuffer
    rw [if_pos ⟨h1, hvw ▸ h2, h3, hvh ▸ h4⟩]
    rw [hb (i + dx) (j + dy) h1 (hvw ▸ h2) h3 (hvh ▸ h4)]
    have e1 : v.x + (i + dx) = v'.x + i := by
      simp [hv', PRect.moveIp]; ring
    have e2 : v.y + (j + dy) = v'.y + j := by
      simp [hv', PRect.moveIp]; ring
    rw [e1, e2]

/-- `center` never changes the redraw cutoff, the clear color, or the
tile-view size. -/
theorem center_config (d : MapData) (s : RState) (cx cy : Int) :
    (center d s cx cy).redrawCutoff = s.redrawCutoff ∧
    (center d s cx cy).clearColor = s.clearColor := by
  unfold center
  dsimp only
  split_ifs <;> exact ⟨rfl, rfl⟩

/-- One `center` call keeps the buffer pixel-identical to a full redraw at
the (possibly moved) tile view, whichever of the three maintenance branches
runs. -/
theorem center_preserves_buffer (d : MapData) (s : RState) (cx cy : Int)
    (hcut : s.redrawCutoff = 1) (hinv : bufferMatchesRedraw d s) :
    bufferMatchesRedraw d (center d s cx cy) := by
  unfold center
  dsimp only
  split_ifs with h1 h2
  · -- incremental scroll-and-patch
    intro i j hi hi2 hj hj2
    have hdx : -1 ≤ (centerCalc d s cx cy).left - s.tileView.x ∧
        (centerCalc d s cx cy).left - s.tileView.x ≤ 1 := by
      have habs := le_max_left |(centerCalc d s cx cy).left - s.tileView.x|
        |(centerCalc d s cx cy).top - s.tileView.y|
      have := h1.2
      rw [hcut] at this
      have := abs_le.mp (habs.trans this)
      exact this
    have hdy : -1 ≤ (centerCalc d s cx cy).top - s.tileView.y ∧
        (centerCalc d s cx cy).top - s.tileView.y ≤ 1 := by
      have habs := le_max_right |(centerCalc d s cx cy).left - s.tileView.x|
        |(centerCalc d s cx cy).top - s.tileView.y|
      have := h1.2
      rw [hcut] at this
      have := abs_le.mp (habs.trans this)
      exact this
    exact patch_step d s.clearColor s.buffer s.tileView _ _ hdx hdy hinv i j
      hi hi2 hj hj2
  · -- forced full redraw
    intro i j _ _ _ _
    rfl
  · -- no view change
    exact hinv

/-- **C2: scroll/redraw equivalence.**  For every sequence of `center()`
calls from any state whose buffer matches a full redraw (as
`_initialize_buffers` guarantees) and whose redraw cutoff is the
initialized value 1, the buffer content addressed by `_tile_view` after the
incremental scroll-and-patch path (`Surface.scroll` plus
`_queue_edge_tiles` of the newly exposed strips) is pixel-identical to a
single full `redraw_tiles()` at the same final `_tile_view`. -/
theorem C2_scroll_redraw_equivalence (d : MapData) (steps : List (Int × Int))
    (s : RState) (hcut : s.redrawCutoff = 1)
    (hinv : bufferMatchesRedraw d s) :
    bufferMatchesRedraw d
      (steps.foldl (fun st p => center d st p.1 p.2) s) := by
  induction steps generalizing s with
  | nil => exact hinv
  | cons p rest ih =>
    rw [List.foldl_cons]
    exact ih (center d s p.1 p.2)
      ((center_config d s p.1 p.2).1.trans hcut)
      (center_preserves_buffer d s p.1 p.2 hcut hinv)

/-- Closed witness for `C2_scroll_redraw_equivalence`: two `center` calls
(the first takes the scroll-and-patch path, the second a full redraw), then
the buffer equals the redraw at the final view on a concrete cell. -/
theorem C2_scroll_redraw_equivalence_witness :
    ([( (16 : Int), (16 : Int)), ((100 : Int), (100 : Int))].foldl
        (fun st p => center demoData st p.1 p.2) clampState).buffer 0 0 =
      redrawBuffer demoData
        ([( (16 : Int), (16 : Int)), ((100 : Int), (100 : Int))].foldl
          (fun st p => center demoData st p.1 p.2) clampState).clearColor
        ([( (16 : Int), (16 : Int)), ((100 : Int), (100 : Int))].foldl
          (fun st p => center demoData st p.1 p.2) clampState).tileView 0 0 :=
  C2_scroll_redraw_equivalence demoData
    [((16 : Int), (16 : Int)), ((100 : Int), (100 : Int))] clampState rfl
    (fun _ _ _ _ _ _ => rfl) 0 0 (by norm_num) (by decide) (by norm_num)
    (by decide)

/-! ## Claim C1: quadtree `hit` versus brute force -/

/-- For positive sizes, `colliderect` is plain strict span overlap. -/
theorem colliderect_pos_iff (a b : PRect) (ha1 : 0 < a.w) (ha2 : 0 < a.h)
    (hb1 : 0 < b.w) (hb2 : 0 < b.h) :
    a.colliderect b = true ↔
      (a.x < b.x + b.w ∧ b.x < a.x + a.w ∧ a.y < b.y + b.h ∧ b.y < a.y + a.h) := by
  unfold PRect.colliderect
  rw [if_neg (by simp; omega)]
  simp only [Bool.and_eq_true, decide_eq_true_eq]
  constructor <;> intro h <;> omega

/-- A collision never involves a zero-sized rectangle. -/
theorem colliderect_sizes {a b : PRect} (h : a.colliderect b = true) :
    a.w ≠ 0 ∧ a.h ≠ 0 ∧ b.w ≠ 0 ∧ b.h ≠ 0 := by
  unfold PRect.colliderect at h
  by_contra hc
  rw [if_pos (by simp; omega)] at h
  exact Bool.false_ne_true h

/-- A zero-sized query collides with nothing. -/
theorem colliderect_zero_query {a b : PRect} (h : b.w = 0 ∨ b.h = 0) :
    a.colliderect b = false := by
  unfold PRect.colliderect
  rw [if_pos (by simp; omega)]

theorem mem_bruteHit {L : List PRect} {q : PRect} {t : Int × Int × Int × Int} :
    t ∈ bruteHit L q ↔ ∃ r ∈ L, r.colliderect q = true ∧ toTuple r = t := by
  unfold bruteHit
  simp [List.mem_filter]
  tauto

theorem bruteHit_mono {L' L : List PRect} {q : PRect}
    (h : ∀ r ∈ L', r ∈ L) {t : Int × Int × Int × Int}
    (ht : t ∈ bruteHit L' q) : t ∈ bruteHit L q := by
  rw [mem_bruteHit] at ht ⊢
  obtain ⟨r, hr, hc, he⟩ := ht
  exact ⟨r, h r hr, hc, he⟩

/-- Unfolding lemma for `QTree.hit` on a node. -/
theorem hit_node (items : List PRect) (cx cy : Int) (b : PRect)
    (nw ne sw se : Option QTree) (q : PRect) :
    (QTree.node items cx cy b nw ne sw se).hit q =
      if ¬ b.colliderect q then ∅
      else
        ((items.filter fun i => i.colliderect q).map toTuple).toFinset ∪
        (if q.x ≤ cx ∧ q.y ≤ cy then
          (match nw with | some c => c.hit q | none => ∅) else ∅) ∪
        (if q.x ≤ cx ∧ q.bottom ≥ cy then
          (match sw with | some c => c.hit q | none => ∅) else ∅) ∪
        (if q.right ≥ cx ∧ q.y ≤ cy then
          (match ne with | some c => c.hit q | none => ∅) else ∅) ∪
        (if q.right ≥ cx ∧ q.bottom ≥ cy then
          (match se with | some c => c.hit q | none => ∅) else ∅) := by
  cases nw <;> cases ne <;> cases sw <;> cases se <;> rfl

/-- Unfolding lemma for `mkQuadTree` at positive depth. -/
theorem mkQuadTree_succ (rects : List PRect) (d : Nat) (B : PRect) :
    mkQuadTree rects (d + 1) B =
      .node (keepItems B.centerx B.centery rects) B.centerx B.centery B
        (if (nwItems B.centerx B.centery rects).isEmpty then none
         else some (mkQuadTree (nwItems B.centerx B.centery rects) d
           ⟨B.x, B.y, B.centerx, B.centery⟩))
        (if (neItems B.centerx B.centery rects).isEmpty then none
         else some (mkQuadTree (neItems B.centerx B.centery rects) d
           ⟨B.centerx, B.y, B.right, B.centery⟩))
        (if (swItems B.centerx B.centery rects).isEmpty then none
         else some (mkQuadTree (swItems B.centerx B.centery rects) d
           ⟨B.x, B.centery, B.centerx, B.bottom⟩))
        (if (seItems B.centerx B.centery rects).isEmpty then none
         else some (mkQuadTree (seItems B.centerx B.centery rects) d
           ⟨B.centerx, B.centery, B.right, B.bottom⟩)) := rfl

/-- The hit set of a node whose boundary misses the query is empty. -/
theorem hit_of_not_collide {L : List PRect} {dep : Nat} {B q : PRect}
    (h : B.colliderect q = false) : (mkQuadTree L dep B).hit q = ∅ := by
  cases dep with
  | zero => rw [mkQuadTree, hit_node, if_pos (by simp [h])]
  | succ d => rw [mkQuadTree_succ, hit_node, if_pos (by simp [h])]

/-- Soundness: everything `hit` returns comes from an item of the input
list that overlaps the query. -/
theorem hit_subset_brute (dep : Nat) :
    ∀ (L : List PRect) (B q : PRect) (t : Int × Int × Int × Int),
      t ∈ (mkQuadTree L dep B).hit q → t ∈ bruteHit L q := by
  induction dep with
  | zero =>
    intro L B q t ht
    rw [mkQuadTree, hit_node] at ht
    by_cases hc : B.colliderect q = true
    · rw [if_neg (by simp [hc])] at ht
      simp at ht
      exact mem_bruteHit.mpr (by tauto)
    · rw [if_pos (by simp [Bool.not_eq_true] at hc ⊢; exact hc)] at ht
      simp at ht
  | succ d ih =>
    intro L B q t ht
    have hchild : ∀ (l : List PRect) (b' : PRect),
        (∀ r ∈ l, r ∈ L) →
        t ∈ (match (if l.isEmpty then none
              else some (mkQuadTree l d b') : Option QTree) with
          | some c => c.hit q
          | none => (∅ : Finset (Int × Int × Int × Int))) →
        t ∈ bruteHit L q := by
      intro l b' hsub hmem
      split_ifs at hmem with he
      · simp at hmem
      · exact bruteHit_mono hsub (ih l b' q t hmem)
    rw [mkQuadTree_succ, hit_node] at ht
    by_cases hc : B.colliderect q = true
    · rw [if_neg (by simp [hc])] at ht
      simp only [Finset.mem_union] at ht
      rcases ht with ((((ht | ht) | ht) | ht) | ht)
      · exact bruteHit_mono (fun r hr => List.mem_of_mem_filter hr) ht
      · by_cases hg : q.x ≤ B.centerx ∧ q.y ≤ B.centery
        · rw [if_pos hg] at ht
          exact hchild _ _ (fun r hr => List.mem_of_mem_filter hr) ht
        · rw [if_neg hg] at ht
          simp at ht
      · by_cases hg : q.x ≤ B.centerx ∧ q.bottom ≥ B.centery
        · rw [if_pos hg] at ht
          exact hchild _ _ (fun r hr => List.mem_of_mem_filter hr) ht
        · rw [if_neg hg] at ht
          simp at ht
      · by_cases hg : q.right ≥ B.centerx ∧ q.y ≤ B.centery
        · rw [if_pos hg] at ht
          exact hchild _ _ (fun r hr => List.mem_of_mem_filter hr) ht
        · rw [if_neg hg] at ht
          simp at ht
      · by_cases hg : q.right ≥ B.centerx ∧ q.bottom ≥ B.centery
        · rw [if_pos hg] at ht
          exact hchild _ _ (fun r hr => List.mem_of_mem_filter hr) ht
        · rw [if_neg hg] at ht
          simp at ht
    · rw [if_pos (by simp [Bool.not_eq_true] at hc ⊢; exact hc)] at ht
      simp at ht

theorem centerx_bounds (B : PRect) (hx : 0 ≤ B.x) (hw : 0 ≤ B.w) :
    B.x ≤ B.centerx ∧ 0 ≤ B.centerx := by
  have h1 : 0 ≤ Int.tdiv B.w 2 := Int.tdiv_nonneg hw (by norm_num)
  unfold PRect.centerx
  omega

theorem centery_bounds (B : PRect) (hy : 0 ≤ B.y) (hh : 0 ≤ B.h) :
    B.y ≤ B.centery ∧ 0 ≤ B.centery := by
  have h1 : 0 ≤ Int.tdiv B.h 2 := Int.tdiv_nonneg hh (by norm_num)
  unfold PRect.centery
  omega

/-- Completeness: with non-negative positive-size items, a boundary with
non-negative topleft and sizes that the query overlaps, and a
positive-size query, every overlapping item of the input list appears in
`hit` — the routing guards, the (as-misread) child boundaries and the
early-outs never lose it. -/
theorem brute_subset_hit (dep : Nat) :
    ∀ (L : List PRect) (B q r : PRect),
      (∀ s ∈ L, 0 ≤ s.x ∧ 0 ≤ s.y ∧ 0 < s.w ∧ 0 < s.h) →
      0 ≤ B.x → 0 ≤ B.y → 0 ≤ B.w → 0 ≤ B.h →
      0 < q.w → 0 < q.h →
      r ∈ L → r.colliderect q = true → B.colliderect q = true →
      toTuple r ∈ (mkQuadTree L dep B).hit q := by
  induction dep with
  | zero =>
    intro L B q r _ _ _ _ _ _ _ hr hrq hBq
    rw [mkQuadTree, hit_node, if_neg (by simp [hBq])]
    refine Finset.mem_union_left _ (Finset.mem_union_left _
      (Finset.mem_union_left _ (Finset.mem_union_left _ ?_)))
    simp only [List.mem_toFinset, List.mem_map]
    exact ⟨r, List.mem_filter.mpr ⟨hr, hrq⟩, rfl⟩
  | succ d ih =>
    intro L B q r hL hBx hBy hBw hBh hqw hqh hr hrq hBq
    obtain ⟨hrx, hry, hrw, hrh⟩ := hL r hr
    obtain ⟨hBw0, hBh0, -, -⟩ := colliderect_sizes hBq
    have hBwpos : 0 < B.w := lt_of_le_of_ne hBw (Ne.symm hBw0)
    have hBhpos : 0 < B.h := lt_of_le_of_ne hBh (Ne.symm hBh0)
    have hrqi := (colliderect_pos_iff r q hrw hrh hqw hqh).mp hrq
    have hBqi := (colliderect_pos_iff B q hBwpos hBhpos hqw hqh).mp hBq
    have hcxb := centerx_bounds B hBx hBw
    have hcyb := centery_bounds B hBy hBh
    rw [mkQuadTree_succ, hit_node, if_neg (by simp [hBq])]
    by_cases hall : inAllFour B.centerx B.centery r
    · refine Finset.mem_union_left _ (Finset.mem_union_left _
        (Finset.mem_union_left _ (Finset.mem_union_left _ ?_)))
      simp only [List.mem_toFinset, List.mem_map]
      refine ⟨r, List.mem_filter.mpr ⟨?_, hrq⟩, rfl⟩
      exact List.mem_filter.mpr ⟨hr, decide_eq_true hall⟩
    · -- choose the quadrant able to route both the item and the query
      have hEWX : (B.centerx < q.x + q.w ∧ B.centerx ≤ r.x + r.w) ∨
          (q.x ≤ B.centerx ∧ r.x ≤ B.centerx ∧
           q.x < B.x + B.centerx ∧ 0 < B.centerx) := by
        obtain ⟨h1, h2, h3, h4⟩ := hrqi
        omega
      have hEWY : (B.centery < q.y + q.h ∧ B.centery ≤ r.y + r.h) ∨
          (q.y ≤ B.centery ∧ r.y ≤ B.centery ∧
           q.y < B.y + B.centery ∧ 0 < B.centery) := by
        obtain ⟨h1, h2, h3, h4⟩ := hrqi
        omega
      rcases hEWX with hex | hwx <;> rcases hEWY with hey | hwy
      · -- east-south: the SE child
        have hmem : r ∈ seItems B.centerx B.centery L := by
          refine List.mem_filter.mpr ⟨hr, decide_eq_true ?_⟩
          refine ⟨hall, ?_, ?_⟩
          · show B.centerx ≤ r.x + r.w
            exact hex.2
          · show B.centery ≤ r.y + r.h
            exact hey.2
        have hne : ¬ (seItems B.centerx B.centery L).isEmpty := by
          simp only [List.isEmpty_iff]
          exact List.ne_nil_of_mem hmem
        have hcol : (⟨B.centerx, B.centery, B.right, B.bottom⟩ : PRect).colliderect q
            = true := by
          rw [colliderect_pos_iff]
          · refine ⟨?_, ?_, ?_, ?_⟩ <;>
              (first
                | show B.centerx < q.x + q.w; exact hex.1
                | show B.centery < q.y + q.h; exact hey.1
                | (show q.x < B.centerx + B.right; unfold PRect.right; omega)
                | (show q.y < B.centery + B.bottom; unfold PRect.bottom; omega))
          · show 0 < B.right
            unfold PRect.right
            omega
          · show 0 < B.bottom
            unfold PRect.bottom
            omega
          · exact hqw
          · exact hqh
        refine Finset.mem_union_right _ ?_
        rw [if_pos ⟨le_of_lt hex.1, le_of_lt hey.1⟩, if_neg hne]
        refine ih (seItems B.centerx B.centery L) _ q r
          (fun s hs => hL s (List.mem_of_mem_filter hs)) hcxb.2 hcyb.2
          ?_ ?_ hqw hqh hmem hrq hcol
        · show (0 : Int) ≤ B.right
          unfold PRect.right
          omega
        · show (0 : Int) ≤ B.bottom
          unfold PRect.bottom
          omega
      · -- east-north: the NE child
        have hmem : r ∈ neItems B.centerx B.centery L := by
          refine List.mem_filter.mpr ⟨hr, decide_eq_true ?_⟩
          refine ⟨hall, ?_, ?_⟩
          · show B.centerx ≤ r.x + r.w
            exact hex.2
          · exact hwy.2.1
        have hne : ¬ (neItems B.centerx B.centery L).isEmpty := by
          simp only [List.isEmpty_iff]
          exact List.ne_nil_of_mem hmem
        have hcol : (⟨B.centerx, B.y, B.right, B.centery⟩ : PRect).colliderect q
            = true := by
          rw [colliderect_pos_iff]
          · refine ⟨hex.1, ?_, hBqi.2.2.1, hwy.2.2.1⟩
            show q.x < B.centerx + B.right
            unfold PRect.right
            have := hBqi.2.1
            omega
          · show 0 < B.right
            unfold PRect.right
            omega
          · exact hwy.2.2.2
          · exact hqw
          · exact hqh
        refine Finset.mem_union_left _ (Finset.mem_union_right _ ?_)
        rw [if_pos ⟨le_of_lt hex.1, hwy.1⟩, if_neg hne]
        refine ih (neItems B.centerx B.centery L) _ q r
          (fun s hs => hL s (List.mem_of_mem_filter hs)) hcxb.2 hBy
          ?_ hcyb.2 hqw hqh hmem hrq hcol
        show (0 : Int) ≤ B.right
        unfold PRect.right
        omega
      · -- west-south: the SW child
        have hmem : r ∈ swItems B.centerx B.centery L := by
          refine List.mem_filter.mpr ⟨hr, decide_eq_true ?_⟩
          refine ⟨hall, hwx.2.1, ?_⟩
          show B.centery ≤ r.y + r.h
          exact hey.2
        have hne : ¬ (swItems B.centerx B.centery L).isEmpty := by
          simp only [List.isEmpty_iff]
          exact List.ne_nil_of_mem hmem
        have hcol : (⟨B.x, B.centery, B.centerx, B.bottom⟩ : PRect).colliderect q
            = true := by
          rw [colliderect_pos_iff]
          · refine ⟨hBqi.1, hwx.2.2.1, hey.1, ?_⟩
            show q.y < B.centery + B.bottom
            unfold PRect.bottom
            have := hBqi.2.2.2
            omega
          · exact hwx.2.2.2
          · show 0 < B.bottom
            unfold PRect.bottom
            omega
          · exact hqw
          · exact hqh
        refine Finset.mem_union_left _ (Finset.mem_union_left _
          (Finset.mem_union_right _ ?_))
        rw [if_pos ⟨hwx.1, le_of_lt hey.1⟩, if_neg hne]
        refine ih (swItems B.centerx B.centery L) _ q r
          (fun s hs => hL s (List.mem_of_mem_filter hs)) hBx hcyb.2
          hcxb.2 ?_ hqw hqh hmem hrq hcol
        show (0 : Int) ≤ B.bottom
        unfold PRect.bottom
        omega
      · -- west-north: the NW child
        have hmem : r ∈ nwItems B.centerx B.centery L := by
          refine List.mem_filter.mpr ⟨hr, decide_eq_true ?_⟩
          exact ⟨hall, hwx.2.1, hwy.2.1⟩
        have hne : ¬ (nwItems B.centerx B.centery L).isEmpty := by
          simp only [List.isEmpty_iff]
          exact List.ne_nil_of_mem hmem
        have hcol : (⟨B.x, B.y, B.centerx, B.centery⟩ : PRect).colliderect q
            = true := by
          rw [colliderect_pos_iff]
          · exact ⟨hBqi.1, hwx.2.2.1, hBqi.2.2.1, hwy.2.2.1⟩
          · exact hwx.2.2.2
          · exact hwy.2.2.2
          · exact hqw
          · exact hqh
        refine Finset.mem_union_left _ (Finset.mem_union_left _
          (Finset.mem_union_left _ (Finset.mem_union_right _ ?_)))
        rw [if_pos ⟨hwx.1, hwy.1⟩, if_neg hne]
        exact ih (nwItems B.centerx B.centery L) _ q r
          (fun s hs => hL s (List.mem_of_mem_filter hs)) hBx hBy
          hcxb.2 hcyb.2 hqw hqh hmem hrq hcol

/-- `unionall` covers the span of every input rectangle. -/
theorem unionall_contains (rest : List PRect) :
    ∀ (r0 r : PRect), r ∈ r0 :: rest →
      (r0.unionall rest).x ≤ r.x ∧ (r0.unionall rest).y ≤ r.y ∧
      r.x + r.w ≤ (r0.unionall rest).x + (r0.unionall rest).w ∧
      r.y + r.h ≤ (r0.unionall rest).y + (r0.unionall rest).h := by
  induction rest with
  | nil =>
    intro r0 r hr
    simp only [List.mem_singleton] at hr
    subst hr
    exact ⟨le_rfl, le_rfl, le_rfl, le_rfl⟩
  | cons b rest ih =>
    intro r0 r hr
    have hstep : r0.unionall (b :: rest) = (r0.union b).unionall rest := rfl
    rw [hstep]
    have hself : (r0.union b).x ≤ r0.x ∧ (r0.union b).y ≤ r0.y ∧
        r0.x + r0.w ≤ (r0.union b).x + (r0.union b).w ∧
        r0.y + r0.h ≤ (r0.union b).y + (r0.union b).h ∧
        (r0.union b).x ≤ b.x ∧ (r0.union b).y ≤ b.y ∧
        b.x + b.w ≤ (r0.union b).x + (r0.union b).w ∧
        b.y + b.h ≤ (r0.union b).y + (r0.union b).h := by
      unfold PRect.union
      dsimp only
      omega
    have hhead := ih (r0.union b) (r0.union b) (List.mem_cons_self _ _)
    rcases List.mem_cons.mp hr with hr | hr
    · subst hr
      omega
    · rcases List.mem_cons.mp hr with hr | hr
      · subst hr
        omega
      · exact ih (r0.union b) r (List.mem_cons_of_mem _ hr)

/-- `unionall` of rectangles with non-negative topleft has a non-negative
topleft. -/
theorem unionall_nonneg (rest : List PRect) :
    ∀ (r0 : PRect), (∀ r ∈ r0 :: rest, 0 ≤ r.x ∧ 0 ≤ r.y) →
      0 ≤ (r0.unionall rest).x ∧ 0 ≤ (r0.unionall rest).y := by
  induction rest with
  | nil => intro r0 h; exact h r0 (List.mem_singleton_self _)
  | cons b rest ih =>
    intro r0 h
    have hstep : r0.unionall (b :: rest) = (r0.union b).unionall rest := rfl
    rw [hstep]
    refine ih (r0.union b) ?_
    intro r hr
    rcases List.mem_cons.mp hr with hr | hr
    · subst hr
      have h0 := h r0 (List.mem_cons_self _ _)
      have hb := h b (List.mem_cons_of_mem _ (List.mem_cons_self _ _))
      unfold PRect.union
      dsimp only
      omega
    · exact h r (List.mem_cons_of_mem _ (List.mem_cons_of_mem _ hr))

/-- **C1, counterexample.**  The original claim fails in two independent
ways.  (1) The child boundary 4-tuples `(left, top, cx, cy)` are read by
`Rect(...)` as `(x, y, width, height)`, which under-covers the quadrant as
soon as coordinates are negative: with items `(-10,0,5,5)` and `(10,0,5,5)`
at depth 1 the query `(-6,0,1,5)` overlaps the first item but `hit` returns
the empty set.  (2) The recursion guards use the raw `left/right`, so a
negative-width query such as `(9,1,-5,2)` (which pygame's `colliderect`
normalises) descends into no child and misses `(8,0,4,4)`. -/
theorem C1_counterexample :
    ((fastQuadTree [⟨-10, 0, 5, 5⟩, ⟨10, 0, 5, 5⟩] 1 none).toOption.map
        (fun t => t.hit ⟨-6, 0, 1, 5⟩)) = some ∅ ∧
    bruteHit [⟨-10, 0, 5, 5⟩, ⟨10, 0, 5, 5⟩] ⟨-6, 0, 1, 5⟩ =
      {(-10, 0, 5, 5)} ∧
    ((fastQuadTree [⟨0, 0, 4, 4⟩, ⟨8, 0, 4, 4⟩] 1 none).toOption.map
        (fun t => t.hit ⟨9, 1, -5, 2⟩)) = some ∅ ∧
    bruteHit [⟨0, 0, 4, 4⟩, ⟨8, 0, 4, 4⟩] ⟨9, 1, -5, 2⟩ = {(8, 0, 4, 4)} := by
  decide

/-- **C1 (amended): quadtree hit equals brute force.**  For every non-empty
sequence of item rectangles with non-negative position and positive size,
every construction depth 0–6 with the default boundary, and every query
rectangle of non-negative size, `FastQuadTree.hit(q)` returns exactly the
set of 4-tuples of those item rectangles that overlap `q` — the same set a
brute-force linear scan produces, duplicate-valued rectangles collapsed.
(The restrictions are forced by the counterexample: negative item
coordinates break the as-misread child boundaries, negative query sizes
break the raw-edge recursion guards.) -/
theorem C1_quadtree_hit_bruteforce (items : List PRect) (dep : Nat)
    (q : PRect) (t : QTree) (hd : dep ≤ 6)
    (hpos : ∀ r ∈ items, 0 ≤ r.x ∧ 0 ≤ r.y ∧ 0 < r.w ∧ 0 < r.h)
    (hqw : 0 ≤ q.w) (hqh : 0 ≤ q.h)
    (ht : fastQuadTree items dep none = .ok t) :
    t.hit q = bruteHit items q := by
  match items, hpos, ht with
  | r0 :: rest, hpos, ht =>
  have hteq : t = mkQuadTree (r0 :: rest) dep (r0.unionall rest) := by
    simp only [fastQuadTree, Option.getD, Except.ok.injEq] at ht
    exact ht.symm
  subst hteq
  by_cases hq0 : q.w = 0 ∨ q.h = 0
  · rw [hit_of_not_collide (colliderect_zero_query hq0)]
    symm
    rw [Finset.eq_empty_iff_forall_not_mem]
    intro x hx
    rw [mem_bruteHit] at hx
    obtain ⟨r, -, hc, -⟩ := hx
    rw [colliderect_zero_query hq0] at hc
    exact Bool.false_ne_true hc
  · push_neg at hq0
    have hqwpos : 0 < q.w := lt_of_le_of_ne hqw (Ne.symm hq0.1)
    have hqhpos : 0 < q.h := lt_of_le_of_ne hqh (Ne.symm hq0.2)
    apply Finset.Subset.antisymm
    · intro x hx
      exact hit_subset_brute dep _ _ q x hx
    · intro x hx
      rw [mem_bruteHit] at hx
      obtain ⟨r, hrmem, hrc, hrt⟩ := hx
      have hcont := unionall_contains rest r0 r hrmem
      have hnn := unionall_nonneg rest r0
        (fun s hs => ⟨(hpos s hs).1, (hpos s hs).2.1⟩)
      obtain ⟨hrx, hry, hrw, hrh⟩ := hpos r hrmem
      have hrqi := (colliderect_pos_iff r q hrw hrh hqwpos hqhpos).mp hrc
      have hBq : (r0.unionall rest).colliderect q = true := by
        rw [colliderect_pos_iff _ _ (by omega) (by omega) hqwpos hqhpos]
        omega
      exact hrt ▸ brute_subset_hit dep (r0 :: rest) _ q r hpos hnn.1 hnn.2
        (by omega) (by omega) hqwpos hqhpos hrmem hrc hBq

/-- Closed witness for `C1_quadtree_hit_bruteforce` (the spec's own
example: three rectangles, depth 4, query `(2, 2, 12, 12)`). -/
theorem C1_quadtree_hit_bruteforce_witness :
    (mkQuadTree [⟨0, 0, 10, 10⟩, ⟨5, 5, 10, 10⟩, ⟨10, 10, 10, 10⟩] 4
        ((⟨0, 0, 10, 10⟩ : PRect).unionall
          [⟨5, 5, 10, 10⟩, ⟨10, 10, 10, 10⟩])).hit ⟨2, 2, 12, 12⟩ =
      bruteHit [⟨0, 0, 10, 10⟩, ⟨5, 5, 10, 10⟩, ⟨10, 10, 10, 10⟩]
        ⟨2, 2, 12, 12⟩ :=
  C1_quadtree_hit_bruteforce
    [⟨0, 0, 10, 10⟩, ⟨5, 5, 10, 10⟩, ⟨10, 10, 10, 10⟩] 4 ⟨2, 2, 12, 12⟩ _
    (by norm_num) (by decide) (by decide) (by decide) rfl

end PyScroll
